import Mathlib

/-!
# Verification of the ion shell control-flow executor (`src/shell/flow.rs`)

This file shallowly embeds the control-flow executor of the ion shell: the
AST (`Statement`, `Condition`, `Case`, `ElseIf`, `Function`), the recursive
executor (`execute_statements`, `execute_while`, `execute_for`, `execute_if`,
`execute_match`), and the top-level dispatcher (`on_command`,
`execute_toplevel`).

The executor's external collaborators (parser, pipeline runner, word
expander, variable store, signal source) and the block collectors
(`collect_loops`, `collect_if`, `collect_cases`) are not part of
`src/shell/flow.rs`; they are modelled from the specification, as their
doc comments state.  The pipeline runner and the signal source are
nondeterministic environment inputs; they are resolved by explicit
schedules stored in the shell state (`pipeRes`, `signals`) and pure
oracles in `Env`, so that every definition is executable.

The executor itself is embedded as a single fuel-indexed function `run`
over a `Call` sum type (structural recursion on the fuel, so concrete runs
evaluate by `rfl`); `execute_statements` and friends are thin wrappers that
select the corresponding `Call`, mirroring the Rust methods one-to-one.
-/

/-- Exit status of a pipeline.  `status.rs` is not under `src/`; the spec's
glossary fixes SUCCESS as the conventional zero exit status. -/
def SUCCESS : Int := 0

/-- Modelled from the spec: a generic non-zero failure status used when the
external pipeline runner reports a fatal shell-level failure (`None`). -/
def FAILURE : Int := 1

/-- Modelled from the spec: `flags.rs` is not under `src/`.  The flags are a
bitset including `ERR_EXIT`; the concrete bit chosen for `ERR_EXIT` is
irrelevant to the executor, we fix bit 0. -/
def ERR_EXIT : Nat := 1

/-- A pipeline as seen by the executor: an opaque token.  The executor never
inspects a pipeline, it only hands it to the external runner; the run's
outcome comes from the `pipeRes` schedule in the shell state. -/
structure Pipeline where
  id : Nat
deriving DecidableEq, Repr

/-- Outcome of executing a body (`Condition` in `flow.rs`). -/
inductive Condition where
  | Continue
  | Break
  | NoOp
  | SigInt
deriving DecidableEq, Repr

mutual
/-- The statement AST (`Statement` in `flow_control.rs`, as described by the
spec's data model and used by `flow.rs`). -/
inductive Statement where
  | Pipeline (pipeline : Pipeline)
  | Let (expression : String)
  | Export (expression : String)
  | If (expression : Pipeline) (success : List Statement) (else_if : List ElseIf)
      (failure : List Statement)
  | While (expression : Pipeline) (statements : List Statement)
  | For (vname : String) (values : List String) (statements : List Statement)
  | Function (name : String) (args : List String) (description : String)
      (statements : List Statement)
  | Match (expression : String) (cases : List Case)
  | ElseIfM (elseif : ElseIf)
  | Else
  | End
  | Break
  | Continue
  | CaseM (value : Option String)
  | Error (code : Int)
  | Default

/-- An `else if` arm of an `If` statement. -/
inductive ElseIf where
  | mk (expression : Pipeline) (success : List Statement)

/-- A `case` arm of a `Match` statement; a `none` pattern is the default
(catch-all) arm. -/
inductive Case where
  | mk (value : Option String) (statements : List Statement)
end

/-- Expression pipeline of an `else if` arm. -/
def ElseIf.expression : ElseIf → Pipeline
  | .mk e _ => e

/-- Body of an `else if` arm. -/
def ElseIf.success : ElseIf → List Statement
  | .mk _ s => s

/-- Pattern of a `case` arm. -/
def Case.value : Case → Option String
  | .mk v _ => v

/-- Body of a `case` arm. -/
def Case.statements : Case → List Statement
  | .mk _ s => s

/-- A function record stored in the function table. -/
structure Function where
  name : String
  args : List String
  description : String
  statements : List Statement

/-- Result of the external `ForExpression` resolver (spec §4.3). -/
inductive ForExpression where
  | Multiple (values : List String)
  | Normal (values : String)
  | Range (start : Nat) (stop : Nat)

/-- The pure external collaborators of the executor (spec §6); fixed for a
whole run, so they live outside the mutable shell state:
`flags` is the shell's flag bitset, `fatal` is `handle_signal` (true means
the shell must exit), `signalCode` is `get_signal_code`, `expand` is the
word expander `expand_string`, and `forExpr` is `ForExpression::new`. -/
structure Env where
  flags : Nat
  fatal : Nat → Bool
  signalCode : Nat → Int
  expand : String → List String
  forExpr : List String → ForExpression

/-- The mutable shell state as seen by the executor: the flow-control
accumulator (`level`, `current_statement`, `current_if_mode`, `break_flow`),
`previous_status`, the variable store, the export store, the function table,
the pending-signal queue, the schedule of pipeline run results, and the log
of stderr diagnostics. -/
structure Shell where
  level : Nat
  current_statement : Statement
  current_if_mode : Nat
  break_flow : Bool
  previous_status : Int
  vars : List (String × String)
  exported : List (String × String)
  functions : List (String × Function)
  signals : List Nat
  pipeRes : List (Option Int)
  errors : List String

/-- Modelled from the spec: the variable store's `set_var(name, value)`
(spec §6); binds `name`, overwriting any previous binding. -/
def set_var (name value : String) (st : Shell) : Shell :=
  { st with vars := (name, value) :: st.vars.filter (fun p => p.1 != name) }

/-- Modelled from the spec: `shell/assignments.rs` (`local(expr) → status`)
is not under `src/`.  It binds a variable from a `let` expression and
returns an exit status; we split the expression at the first `=`. -/
def local_assign (expression : String) (st : Shell) : Int × Shell :=
  match expression.splitOn "=" with
  | [] => (FAILURE, st)
  | [_] => (FAILURE, st)
  | name :: rest => (SUCCESS, set_var name (String.intercalate "=" rest) st)

/-- Modelled from the spec: `export(expr) → status` (spec §6), like
`local` but into the exported store. -/
def export_assign (expression : String) (st : Shell) : Int × Shell :=
  match expression.splitOn "=" with
  | [] => (FAILURE, st)
  | [_] => (FAILURE, st)
  | name :: rest =>
    (SUCCESS, { st with
      exported := (name, String.intercalate "=" rest) :: st.exported.filter (fun p => p.1 != name) })

/-- Insert a function record into the function table by name, overwriting
any previous definition (spec §3: redefinition overwrites). -/
def fn_insert (f : Function) (st : Shell) : Shell :=
  { st with functions := (f.name, f) :: st.functions.filter (fun p => p.1 != f.name) }

/-- Modelled from the spec: the external pipeline runner
`run_pipeline(&mut Pipeline) → Option<exit_status>` (spec §6).  The outcome
is drawn from the shell's `pipeRes` schedule; the runner records the exit
status in `previous_status` (spec §7), a `None` fatal failure is recorded
as non-success. -/
def run_pipeline (_pipeline : Pipeline) (st : Shell) : Option Int × Shell :=
  let r := st.pipeRes.headD none
  (r, { st with pipeRes := st.pipeRes.tail, previous_status := r.getD FAILURE })

/-- Does this statement open a compound block (spec §4.1)? -/
def opens_block : Statement → Bool
  | .While _ _ | .For _ _ _ | .If _ _ _ _ | .Function _ _ _ _ | .Match _ _ => true
  | _ => false

/-- The level change a statement causes during collection: an opener
increments, `End` decrements, anything else leaves the level alone. -/
def step_level (s : Statement) (level : Nat) : Nat :=
  if opens_block s then level + 1
  else match s with
    | .End => level - 1
    | _ => level

/-- Modelled from the spec: `collect_loops` from `flow_control.rs` (not
under `src/`), following spec §4.1: drain the statement iterator into the
body; a compound opener increments `level` and is appended, `End`
decrements `level` and stops collection (without being appended) when
`level` returns to 0, everything else is appended verbatim.  Returns the
extended body, the leftover statements, and the final level. -/
def collect_loops : List Statement → List Statement → Nat →
    List Statement × List Statement × Nat
  | [], body, level => (body, [], level)
  | statement :: rest, body, level =>
    if step_level statement level = 0 then (body, rest, 0)
    else collect_loops rest (body ++ [statement]) (step_level statement level)

/-- Append a statement to the body of the last `else if` arm. -/
def append_last_arm : List ElseIf → Statement → List ElseIf
  | [], _ => []
  | [.mk e body], s => [.mk e (body ++ [s])]
  | a :: rest, s => a :: append_last_arm rest s

/-- Route a statement into the sub-body of an `If` selected by the current
mode (0 success, 2 the current `else if` arm, 3 failure). -/
def route_if (success : List Statement) (else_if : List ElseIf)
    (failure : List Statement) (mode : Nat) (s : Statement) :
    List Statement × List ElseIf × List Statement :=
  if mode = 2 then (success, append_last_arm else_if s, failure)
  else if mode = 3 then (success, else_if, failure ++ [s])
  else (success ++ [s], else_if, failure)

/-- Modelled from the spec: `collect_if` from `flow_control.rs` (not under
`src/`), following spec §4.1 and the state machine of §4.4: statements are
routed into `success`, the current `else if` arm, or `failure` according to
the mode; at the If's own nesting depth `Else` transitions to failure and
`ElseIf` pushes a fresh arm; either after failure has begun is a structural
error; `End` closes the `If`.  Returns the final mode, the collected
bodies, the leftover statements, and the final level. -/
def collect_if : List Statement → List Statement → List ElseIf → List Statement →
    Nat → Nat →
    Except String (Nat × List Statement × List ElseIf × List Statement × List Statement × Nat)
  | [], success, else_if, failure, level, mode =>
    .ok (mode, success, else_if, failure, [], level)
  | statement :: rest, success, else_if, failure, level, mode =>
    match statement with
    | .Else =>
      if level = 1 then
        if mode = 3 then .error "ion: syntax error: else block already given"
        else collect_if rest success else_if failure level 3
      else
        let (su, ei, fa) := route_if success else_if failure mode .Else
        collect_if rest su ei fa level mode
    | .ElseIfM elseif =>
      if level = 1 then
        if mode = 3 then .error "ion: syntax error: else if block given after else"
        else collect_if rest success (else_if ++ [elseif]) failure level 2
      else
        let (su, ei, fa) := route_if success else_if failure mode (.ElseIfM elseif)
        collect_if rest su ei fa level mode
    | .End =>
      if level - 1 = 0 then .ok (mode, success, else_if, failure, rest, 0)
      else
        let (su, ei, fa) := route_if success else_if failure mode .End
        collect_if rest su ei fa (level - 1) mode
    | s =>
      let level' := if opens_block s then level + 1 else level
      let (su, ei, fa) := route_if success else_if failure mode s
      collect_if rest su ei fa level' mode

/-- Append a statement to the body of the last open `case` arm; `none` when
no arm is open (a stray statement, a structural error). -/
def append_last_case : List Case → Statement → Option (List Case)
  | [], _ => none
  | [.mk v body], s => some [.mk v (body ++ [s])]
  | c :: rest, s => (append_last_case rest s).map (c :: ·)

/-- Modelled from the spec: `collect_cases` from `flow_control.rs` (not
under `src/`), following spec §4.1: accumulate `Case` arms delimited by
`case` markers until `End`; a statement with no open arm is a structural
error.  The collector state is returned even on error (the Rust version
mutates by reference and reports errors separately), so the fourth
component is the optional error message. -/
def collect_cases : List Statement → List Case → Nat →
    List Case × List Statement × Nat × Option String
  | [], cases, level => (cases, [], level, none)
  | statement :: rest, cases, level =>
    match statement with
    | .CaseM v =>
      if level = 1 then collect_cases rest (cases ++ [.mk v []]) level
      else
        match append_last_case cases (.CaseM v) with
        | none => (cases, rest, level, some "ion: syntax error: encountered statement outside of a case")
        | some cases' => collect_cases rest cases' level
    | s =>
      if step_level s level = 0 then (cases, rest, 0, none)
      else
        match append_last_case cases s with
        | none => (cases, rest, step_level s level,
            some "ion: syntax error: encountered statement outside of a case")
        | some cases' => collect_cases rest cases' (step_level s level)

/-- Result of executing a call: either the process exits with a code
(`Shell::exit` terminates the process), or a `Condition` is returned to the
caller. -/
inductive Outcome where
  | exit (code : Int)
  | cond (c : Condition)
deriving DecidableEq, Repr

/-- The signal / break-flow poll performed after each statement of
`execute_statements` (`flow.rs` lines 281-289): a pending fatal signal
exits with its code, a pending non-fatal signal or a set `break_flow`
(cleared) yields `SigInt`; otherwise execution continues. -/
def poll_after (env : Env) (st : Shell) : Sum (Outcome × Shell) Shell :=
  match st.signals with
  | signal :: rest =>
    let st' := { st with signals := rest }
    if env.fatal signal then .inl (.exit (env.signalCode signal), st')
    else .inl (.cond .SigInt, st')
  | [] =>
    if st.break_flow then .inl (.cond .SigInt, { st with break_flow := false })
    else .inr st

/-- Check whether a case-pattern expansion fits the match value: the
local `matches` function of `execute_match` (some element of `lhs` occurs
in `rhs`). -/
def case_matches (lhs rhs : List String) : Bool :=
  lhs.any (fun v => rhs.contains v)

/-- The case-selection scan of `execute_match`: walk the cases in
declaration order; a `none` pattern is selected unconditionally, a `some`
pattern is expanded and selected if it fits the value; later cases are
not considered.  This is the pure part of the Rust loop (the loop body
executes the selected case and breaks; we return the selected case and let
the caller execute it). -/
def select_case (env : Env) (value : List String) : List Case → Option Case
  | [] => none
  | case :: rest =>
    match case.value with
    | none => some case
    | some v => if case_matches (env.expand v) value then some case else select_case env value rest

/-- The calls of the executor's mutual recursion: each constructor is one
of the `execute_*` methods of `flow.rs` (the `for` loops are split into
a binding and a non-binding variant, matching the `ignore_variable` arms of
`execute_for`; `elseIfScan` is the arm-scanning loop of `execute_if`). -/
inductive Call where
  | stmts (statements : List Statement)
  | whileLoop (expression : Pipeline) (statements : List Statement)
  | forBind (vname : String) (elems : List String) (statements : List Statement)
  | forNoBind (elems : List String) (statements : List Statement)
  | ifStmt (expression : Pipeline) (success : List Statement) (else_if : List ElseIf)
      (failure : List Statement)
  | elseIfScan (arms : List ElseIf) (failure : List Statement)
  | matchStmt (expression : String) (cases : List Case)

/-- Rust's `str::lines`: split on newline, dropping a final empty piece and
one trailing carriage return per line (used by the `Normal` arm of
`execute_for`). -/
def rust_lines (s : String) : List String :=
  if s = "" then []
  else
    let parts := s.splitOn "\n"
    let parts := if parts.getLast? = some "" then parts.dropLast else parts
    parts.map (fun l => if l.endsWith "\r" then l.dropRight 1 else l)

/-- The decimal renderings of the half-open range `[start, stop)`, as
iterated by the `Range` arms of `execute_for`. -/
def range_strings (start stop : Nat) : List String :=
  (List.range' start (stop - start)).map (fun n => toString n)

/-- Dispatch of `execute_for` on the resolved `ForExpression` (the six arms
of the Rust `match`, with the two arms of each pair selected by
`ignore_variable`): choose the element list and whether to bind. -/
def for_call (env : Env) (vname : String) (values : List String)
    (statements : List Statement) : Call :=
  let ignore := vname = "_"
  match env.forExpr values with
  | .Multiple vals => if ignore then .forNoBind vals statements else .forBind vname vals statements
  | .Normal s =>
    if ignore then .forNoBind (rust_lines s) statements
    else .forBind vname (rust_lines s) statements
  | .Range start stop =>
    if ignore then .forNoBind (range_strings start stop) statements
    else .forBind vname (range_strings start stop) statements

/-- Poll the signal source and `break_flow` after a statement: an early
outcome from the poll is returned, otherwise execution continues with `k`
(the bottom of the `execute_statements` loop). -/
def poll_then (env : Env) (k : Shell → Option (Outcome × Shell)) (st : Shell) :
    Option (Outcome × Shell) :=
  match poll_after env st with
  | .inl r => some r
  | .inr st' => k st'

/-- The recursive executor of `flow.rs`, fuel-indexed (the Rust loops can
diverge; `none` means the fuel ran out).  `Call.stmts` is
`execute_statements`: it drains the statement list, pulling nested compound
bodies from the same iterator through the collectors, polls the signal
source and `break_flow` after every statement, and propagates control-flow
outcomes exactly as the Rust `match` arms do.  The other calls are the
loop bodies of `execute_while`, `execute_for` and `execute_if`. -/
def run (env : Env) : Nat → Call → Shell → Option (Outcome × Shell)
  | 0, _, _ => none
  | fuel + 1, call, st =>
    match call with
    | .stmts [] => some (.cond .NoOp, st)
    | .stmts (statement :: rest) =>
      let cont : Shell → List Statement → Option (Outcome × Shell) := fun st' rest' =>
        poll_then env (run env fuel (.stmts rest')) st'
      match statement with
      | .Error number => cont { st with previous_status := number } rest
      | .Let expression =>
        let (status, st1) := local_assign expression st
        cont { st1 with previous_status := status } rest
      | .Export expression =>
        let (status, st1) := export_assign expression st
        cont { st1 with previous_status := status } rest
      | .While expression statements =>
        let (statements', rest', level') := collect_loops rest statements (st.level + 1)
        let st1 := { st with level := level' }
        match run env fuel (.whileLoop expression statements') st1 with
        | none => none
        | some (.exit c, st2) => some (.exit c, st2)
        | some (.cond .SigInt, st2) => some (.cond .SigInt, st2)
        | some (.cond _, st2) => cont st2 rest'
      | .For vname values statements =>
        let (statements', rest', level') := collect_loops rest statements (st.level + 1)
        let st1 := { st with level := level' }
        match run env fuel (for_call env vname values statements') st1 with
        | none => none
        | some (.exit c, st2) => some (.exit c, st2)
        | some (.cond .SigInt, st2) => some (.cond .SigInt, st2)
        | some (.cond _, st2) => cont st2 rest'
      | .If expression success else_if failure =>
        match collect_if rest success else_if failure (st.level + 1) 0 with
        | .error why =>
          some (.cond .Break,
            { st with errors := st.errors ++ [why], level := 0, current_if_mode := 0 })
        | .ok (_, success', else_if', failure', rest', level') =>
          let st1 := { st with level := level' }
          match run env fuel (.ifStmt expression success' else_if' failure') st1 with
          | none => none
          | some (.exit c, st2) => some (.exit c, st2)
          | some (.cond .Break, st2) => some (.cond .Break, st2)
          | some (.cond .Continue, st2) => some (.cond .Continue, st2)
          | some (.cond .SigInt, st2) => some (.cond .SigInt, st2)
          | some (.cond .NoOp, st2) => cont st2 rest'
      | .Function name args description statements =>
        let (statements', rest', level') := collect_loops rest statements (st.level + 1)
        let st1 := fn_insert ⟨name, args, description, statements'⟩ { st with level := level' }
        cont st1 rest'
      | .Pipeline pipeline =>
        let st1 := (run_pipeline pipeline st).2
        if env.flags &&& ERR_EXIT ≠ 0 ∧ st1.previous_status ≠ SUCCESS then
          some (.exit st1.previous_status, st1)
        else cont st1 rest
      | .Break => some (.cond .Break, st)
      | .Continue => some (.cond .Continue, st)
      | .Match expression cases =>
        let (cases', rest', level', err?) := collect_cases rest cases (st.level + 1)
        match err? with
        | some why =>
          some (.cond .Break,
            { st with errors := st.errors ++ [why], level := 0, current_if_mode := 0 })
        | none =>
          let st1 := { st with level := level' }
          match run env fuel (.matchStmt expression cases') st1 with
          | none => none
          | some (.exit c, st2) => some (.exit c, st2)
          | some (.cond .Break, st2) => some (.cond .Break, st2)
          | some (.cond .Continue, st2) => some (.cond .Continue, st2)
          | some (.cond .SigInt, st2) => some (.cond .SigInt, st2)
          | some (.cond .NoOp, st2) => cont st2 rest'
      | _ => cont st rest
    | .whileLoop expression statements =>
      let (r, st1) := run_pipeline expression st
      if r = some SUCCESS then
        match run env fuel (.stmts statements) st1 with
        | none => none
        | some (.cond .Break, st2) => some (.cond .NoOp, st2)
        | some (.cond .SigInt, st2) => some (.cond .SigInt, st2)
        | some (.exit c, st2) => some (.exit c, st2)
        | some (.cond _, st2) => run env fuel (.whileLoop expression statements) st2
      else some (.cond .NoOp, st1)
    | .forBind vname elems statements =>
      match elems with
      | [] => some (.cond .NoOp, st)
      | value :: elems' =>
        let st1 := set_var vname value st
        match run env fuel (.stmts statements) st1 with
        | none => none
        | some (.cond .Break, st2) => some (.cond .NoOp, st2)
        | some (.cond .SigInt, st2) => some (.cond .SigInt, st2)
        | some (.exit c, st2) => some (.exit c, st2)
        | some (.cond _, st2) => run env fuel (.forBind vname elems' statements) st2
    | .forNoBind elems statements =>
      match elems with
      | [] => some (.cond .NoOp, st)
      | _ :: elems' =>
        match run env fuel (.stmts statements) st with
        | none => none
        | some (.cond .Break, st2) => some (.cond .NoOp, st2)
        | some (.cond .SigInt, st2) => some (.cond .SigInt, st2)
        | some (.exit c, st2) => some (.exit c, st2)
        | some (.cond _, st2) => run env fuel (.forNoBind elems' statements) st2
    | .ifStmt expression success else_if failure =>
      let (r, st1) := run_pipeline expression st
      if r = some SUCCESS then run env fuel (.stmts success) st1
      else run env fuel (.elseIfScan else_if failure) st1
    | .elseIfScan arms failure =>
      match arms with
      | [] => run env fuel (.stmts failure) st
      | arm :: arms' =>
        let (r, st1) := run_pipeline arm.expression st
        if r = some SUCCESS then run env fuel (.stmts arm.success) st1
        else run env fuel (.elseIfScan arms' failure) st1
    | .matchStmt expression cases =>
      let value := env.expand expression
      match select_case env value cases with
      | none => some (.cond .NoOp, st)
      | some case => run env fuel (.stmts case.statements) st

/-- Method `execute_statements` of `flow.rs`. -/
def execute_statements (env : Env) (fuel : Nat) (statements : List Statement)
    (st : Shell) : Option (Outcome × Shell) :=
  run env fuel (.stmts statements) st

/-- Method `execute_while` of `flow.rs`. -/
def execute_while (env : Env) (fuel : Nat) (expression : Pipeline)
    (statements : List Statement) (st : Shell) : Option (Outcome × Shell) :=
  run env fuel (.whileLoop expression statements) st

/-- Method `execute_for` of `flow.rs`: resolve the values through the
external `ForExpression` resolver and run the matching loop. -/
def execute_for (env : Env) (fuel : Nat) (vname : String) (values : List String)
    (statements : List Statement) (st : Shell) : Option (Outcome × Shell) :=
  run env fuel (for_call env vname values statements) st

/-- Method `execute_if` of `flow.rs`. -/
def execute_if (env : Env) (fuel : Nat) (expression : Pipeline)
    (success : List Statement) (else_if : List ElseIf) (failure : List Statement)
    (st : Shell) : Option (Outcome × Shell) :=
  run env fuel (.ifStmt expression success else_if failure) st

/-- Method `execute_match` of `flow.rs`. -/
def execute_match (env : Env) (fuel : Nat) (expression : String) (cases : List Case)
    (st : Shell) : Option (Outcome × Shell) :=
  run env fuel (.matchStmt expression cases) st

/-- Result of `execute_toplevel`: the process exited, a structural error is
propagated to `on_command` (Rust's `Result::Err`), or execution continues
with the leftover statements of the line. -/
inductive TopResult where
  | exited (code : Int) (st : Shell)
  | err (why : String) (st : Shell)
  | ok (st : Shell) (rest : List Statement)

/-- Method `execute_toplevel` of `flow.rs`: simple statements execute
immediately; a compound opener collects its body from the same line
iterator and either executes (nesting closed) or is stored as the partial
`current_statement`; stray `else` / `else if` / `end` emit diagnostics. -/
def execute_toplevel (env : Env) (fuel : Nat) (statement : Statement)
    (rest : List Statement) (st : Shell) : Option TopResult :=
  match statement with
  | .Error number => some (.ok { st with previous_status := number } rest)
  | .Let expression =>
    let (status, st1) := local_assign expression st
    some (.ok { st1 with previous_status := status } rest)
  | .Export expression =>
    let (status, st1) := export_assign expression st
    some (.ok { st1 with previous_status := status } rest)
  | .While expression statements =>
    let (statements', rest', level') := collect_loops rest statements (st.level + 1)
    let st1 := { st with level := level' }
    if level' = 0 then
      match run env fuel (.whileLoop expression statements') st1 with
      | none => none
      | some (.exit c, st2) => some (.exited c st2)
      | some (.cond _, st2) => some (.ok st2 rest')
    else some (.ok { st1 with current_statement := .While expression statements' } rest')
  | .For vname values statements =>
    let (statements', rest', level') := collect_loops rest statements (st.level + 1)
    let st1 := { st with level := level' }
    if level' = 0 then
      match run env fuel (for_call env vname values statements') st1 with
      | none => none
      | some (.exit c, st2) => some (.exited c st2)
      | some (.cond _, st2) => some (.ok st2 rest')
    else some (.ok { st1 with current_statement := .For vname values statements' } rest')
  | .If expression success else_if failure =>
    match collect_if rest success else_if failure (st.level + 1) 0 with
    | .error why => some (.err why st)
    | .ok (mode, success', else_if', failure', rest', level') =>
      let st1 := { st with level := level' }
      if level' = 0 then
        match run env fuel (.ifStmt expression success' else_if' failure') st1 with
        | none => none
        | some (.exit c, st2) => some (.exited c st2)
        | some (.cond _, st2) => some (.ok st2 rest')
      else some (.ok { st1 with
          current_if_mode := mode,
          current_statement := .If expression success' else_if' failure' } rest')
  | .Function name args description statements =>
    let (statements', rest', level') := collect_loops rest statements (st.level + 1)
    let st1 := { st with level := level' }
    if level' = 0 then
      some (.ok (fn_insert ⟨name, args, description, statements'⟩ st1) rest')
    else some (.ok { st1 with
        current_statement := .Function name args description statements' } rest')
  | .Pipeline pipeline =>
    let st1 := (run_pipeline pipeline st).2
    if env.flags &&& ERR_EXIT ≠ 0 ∧ st1.previous_status ≠ SUCCESS then
      some (.exited st1.previous_status st1)
    else some (.ok st1 rest)
  | .ElseIfM _ =>
    some (.ok { st with errors := st.errors ++ ["ion: syntax error: not an if statement"] } rest)
  | .Else =>
    some (.ok { st with errors := st.errors ++ ["ion: syntax error: not an if statement"] } rest)
  | .End =>
    some (.ok { st with errors := st.errors ++ ["ion: syntax error: no block to end"] } rest)
  | .Match expression cases =>
    let (cases', rest', level', errMsg) := collect_cases rest cases (st.level + 1)
    let st0 :=
      match errMsg with
      | some why => { st with errors := st.errors ++ [why] }
      | none => st
    let st1 := { st0 with level := level' }
    if level' = 0 then
      match run env fuel (.matchStmt expression cases') st1 with
      | none => none
      | some (.exit c, st2) => some (.exited c st2)
      | some (.cond _, st2) => some (.ok st2 rest')
    else some (.ok { st1 with current_statement := .Match expression cases' } rest')
  | _ => some (.ok st rest)

/-- The toplevel drain loop of `on_command`: feed each statement (and the
rest of the line) to `execute_toplevel`; a toplevel error prints the
diagnostic, resets `level` and `current_if_mode`, and aborts the line.
The `gas` counter only bounds the number of drained statements (the Rust
loop is bounded by the iterator); `on_command` passes `fuel` for it. -/
def run_toplevel (env : Env) (fuel : Nat) : Nat → List Statement → Shell →
    Option (Option Int × Shell)
  | _, [], st => some (none, st)
  | 0, _ :: _, _ => none
  | gas + 1, statement :: rest, st =>
    match execute_toplevel env fuel statement rest st with
    | none => none
    | some (.exited c st1) => some (some c, st1)
    | some (.err why st1) =>
      some (none, { st1 with errors := st1.errors ++ [why], level := 0, current_if_mode := 0 })
    | some (.ok st1 rest') => run_toplevel env fuel gas rest' st1

/-- Method `on_command` of `flow.rs`.  The external parser is not under
`src/`; a line is modelled by its parsed statement list.  `break_flow` is
cleared on entry; with no partial statement pending every statement goes
through `execute_toplevel`, otherwise the line is collected into the
pending statement, a `current_if_mode` of 4 discards it, and when the
nesting closes the captured statement executes and the leftovers drain.
The first result component is `some code` when the process exited. -/
def on_command (env : Env) (fuel : Nat) (statements : List Statement) (st : Shell) :
    Option (Option Int × Shell) :=
  let st := { st with break_flow := false }
  if st.level = 0 then run_toplevel env fuel fuel statements st
  else
    let collected : Shell × List Statement :=
      match st.current_statement with
      | .While expression body =>
        let (body', rest', level') := collect_loops statements body st.level
        ({ st with current_statement := .While expression body', level := level' }, rest')
      | .For vname values body =>
        let (body', rest', level') := collect_loops statements body st.level
        ({ st with current_statement := .For vname values body', level := level' }, rest')
      | .Function name args description body =>
        let (body', rest', level') := collect_loops statements body st.level
        ({ st with
            current_statement := .Function name args description body',
            level := level' }, rest')
      | .If expression success else_if failure =>
        match collect_if statements success else_if failure st.level st.current_if_mode with
        | .ok (mode, success', else_if', failure', rest', level') =>
          ({ st with
              current_statement := .If expression success' else_if' failure',
              level := level', current_if_mode := mode }, rest')
        | .error why =>
          ({ st with errors := st.errors ++ [why], current_if_mode := 4 }, [])
      | .Match expression cases =>
        let (cases', rest', level', errMsg) := collect_cases statements cases st.level
        let st' := { st with current_statement := .Match expression cases', level := level' }
        (match errMsg with
         | some why => { st' with errors := st'.errors ++ [why] }
         | none => st', rest')
      | _ => (st, statements)
    let st1 := collected.1
    let rest := collected.2
    if st1.current_if_mode = 4 then
      some (none, { st1 with level := 0, current_if_mode := 0, current_statement := .Default })
    else if st1.level = 0 then
      let replacement := st1.current_statement
      let st2 := { st1 with current_statement := .Default }
      match replacement with
      | .Error number => run_toplevel env fuel fuel rest { st2 with previous_status := number }
      | .Let expression =>
        let (status, st3) := local_assign expression st2
        run_toplevel env fuel fuel rest { st3 with previous_status := status }
      | .Export expression =>
        let (status, st3) := export_assign expression st2
        run_toplevel env fuel fuel rest { st3 with previous_status := status }
      | .While expression body =>
        match run env fuel (.whileLoop expression body) st2 with
        | none => none
        | some (.exit c, st3) => some (some c, st3)
        | some (.cond .SigInt, st3) => some (none, st3)
        | some (.cond _, st3) => run_toplevel env fuel fuel rest st3
      | .For vname values body =>
        match run env fuel (for_call env vname values body) st2 with
        | none => none
        | some (.exit c, st3) => some (some c, st3)
        | some (.cond .SigInt, st3) => some (none, st3)
        | some (.cond _, st3) => run_toplevel env fuel fuel rest st3
      | .Function name args description body =>
        run_toplevel env fuel fuel rest (fn_insert ⟨name, args, description, body⟩ st2)
      | .If expression success else_if failure =>
        match run env fuel (.ifStmt expression success else_if failure) st2 with
        | none => none
        | some (.exit c, st3) => some (some c, st3)
        | some (.cond _, st3) => run_toplevel env fuel fuel rest st3
      | .Match expression cases =>
        match run env fuel (.matchStmt expression cases) st2 with
        | none => none
        | some (.exit c, st3) => some (some c, st3)
        | some (.cond _, st3) => run_toplevel env fuel fuel rest st3
      | _ => run_toplevel env fuel fuel rest st2
    else some (none, st1)

/-- Feed several input lines to `on_command` in order, stopping if the
process exits. -/
def run_chunks (env : Env) (fuel : Nat) : List (List Statement) → Shell →
    Option (Option Int × Shell)
  | [], st => some (none, st)
  | chunk :: chunks, st =>
    match on_command env fuel chunk st with
    | none => none
    | some (some c, st1) => some (some c, st1)
    | some (none, st1) => run_chunks env fuel chunks st1

/-- What a run outcome says about the signal queue and `break_flow`:
a `SigInt` comes from exactly one poll, which either dequeued one
non-fatal signal or consumed a set `break_flow`; any other condition
leaves both untouched; an exit left both untouched (ERR_EXIT) or dequeued
one fatal signal and carries its code. -/
def sig_report (env : Env) (st : Shell) (out : Outcome) (st' : Shell) : Prop :=
  match out with
  | .cond .SigInt =>
    (∃ sig, st.signals = sig :: st'.signals ∧ env.fatal sig = false ∧
      st'.break_flow = st.break_flow) ∨
    (st.break_flow = true ∧ st'.break_flow = false ∧ st'.signals = st.signals)
  | .cond .Continue => st'.signals = st.signals ∧ st'.break_flow = st.break_flow
  | .cond .Break => st'.signals = st.signals ∧ st'.break_flow = st.break_flow
  | .cond .NoOp => st'.signals = st.signals ∧ st'.break_flow = st.break_flow
  | .exit c =>
    (st'.signals = st.signals ∧ st'.break_flow = st.break_flow) ∨
    (∃ sig, st.signals = sig :: st'.signals ∧ env.fatal sig = true ∧
      c = env.signalCode sig ∧ st'.break_flow = st.break_flow)

/-- The executor invariant: the signal report holds, `current_if_mode` is
either untouched or reset to 0, and `current_statement` is untouched. -/
def exec_inv (env : Env) (st : Shell) (out : Outcome) (st' : Shell) : Prop :=
  sig_report env st out st' ∧
  (st'.current_if_mode = st.current_if_mode ∨ st'.current_if_mode = 0) ∧
  st'.current_statement = st.current_statement

theorem exec_inv_compose {env : Env} {st st1 st' : Shell} {out : Outcome}
    (h : exec_inv env st1 out st')
    (hsg : st1.signals = st.signals) (hbf : st1.break_flow = st.break_flow)
    (hm : st1.current_if_mode = st.current_if_mode ∨ st1.current_if_mode = 0)
    (hcs : st1.current_statement = st.current_statement) : exec_inv env st out st' := by
  obtain ⟨h1, h2, h3⟩ := h
  refine ⟨?_, ?_, h3.trans hcs⟩
  · cases out with
    | exit c => rw [sig_report] at h1 ⊢; rw [hsg, hbf] at h1; exact h1
    | cond c =>
      cases c <;> rw [sig_report] at h1 ⊢ <;> rw [hsg, hbf] at h1 <;> exact h1
  · rcases h2 with h2 | h2
    · rw [h2]; exact hm
    · exact Or.inr h2

theorem poll_after_inl {env : Env} {st st' : Shell} {out : Outcome}
    (h : poll_after env st = .inl (out, st')) : exec_inv env st out st' := by
  unfold poll_after at h
  rcases hsg : st.signals with _ | ⟨sig, rest⟩ <;> rw [hsg] at h
  · rcases hbf : st.break_flow with _ | _ <;> rw [hbf] at h
    · simp at h
    · simp at h
      obtain ⟨ho, hst⟩ := h
      subst hst
      refine ⟨?_, Or.inl rfl, rfl⟩
      rw [← ho, sig_report]
      exact Or.inr ⟨hbf, rfl, hsg.symm⟩
  · rcases hf : env.fatal sig with _ | _ <;> simp [hf] at h
    · obtain ⟨ho, hst⟩ := h
      subst hst
      refine ⟨?_, Or.inl rfl, rfl⟩
      rw [← ho, sig_report]
      exact Or.inl ⟨sig, by rw [hsg], hf, rfl⟩
    · obtain ⟨ho, hst⟩ := h
      subst hst
      refine ⟨?_, Or.inl rfl, rfl⟩
      rw [← ho, sig_report]
      exact Or.inr ⟨sig, by rw [hsg], hf, rfl, rfl⟩

theorem poll_after_inr {env : Env} {st st' : Shell}
    (h : poll_after env st = .inr st') : st' = st := by
  unfold poll_after at h
  rcases hsg : st.signals with _ | ⟨sig, rest⟩ <;> rw [hsg] at h
  · rcases hbf : st.break_flow with _ | _ <;> rw [hbf] at h
    · simpa using h.symm
    · simp at h
  · rcases hf : env.fatal sig with _ | _ <;> simp [hf] at h

theorem poll_then_inv {env : Env} {k : Shell → Option (Outcome × Shell)} {st : Shell}
    {out : Outcome} {st' : Shell}
    (hk : ∀ s o s', k s = some (o, s') → exec_inv env s o s')
    (h : poll_then env k st = some (out, st')) : exec_inv env st out st' := by
  unfold poll_then at h
  rcases hp : poll_after env st with r | s2 <;> rw [hp] at h
  · obtain ⟨rfl⟩ := Option.some.inj h
    exact poll_after_inl hp
  · have hs2 := poll_after_inr hp
    subst hs2
    exact hk _ _ _ h

theorem run_pipeline_frame (p : Pipeline) (st : Shell) :
    (run_pipeline p st).2.signals = st.signals ∧
    (run_pipeline p st).2.break_flow = st.break_flow ∧
    (run_pipeline p st).2.current_if_mode = st.current_if_mode ∧
    (run_pipeline p st).2.current_statement = st.current_statement ∧
    (run_pipeline p st).2.level = st.level := by
  exact ⟨rfl, rfl, rfl, rfl, rfl⟩

theorem set_var_frame (n v : String) (st : Shell) :
    (set_var n v st).signals = st.signals ∧
    (set_var n v st).break_flow = st.break_flow ∧
    (set_var n v st).current_if_mode = st.current_if_mode ∧
    (set_var n v st).current_statement = st.current_statement ∧
    (set_var n v st).level = st.level := by
  exact ⟨rfl, rfl, rfl, rfl, rfl⟩

theorem local_assign_frame (e : String) (st : Shell) :
    (local_assign e st).2.signals = st.signals ∧
    (local_assign e st).2.break_flow = st.break_flow ∧
    (local_assign e st).2.current_if_mode = st.current_if_mode ∧
    (local_assign e st).2.current_statement = st.current_statement ∧
    (local_assign e st).2.level = st.level := by
  rcases hs : e.splitOn "=" with _ | ⟨a, _ | ⟨b, l⟩⟩ <;>
    simp [local_assign, hs, set_var]

theorem export_assign_frame (e : String) (st : Shell) :
    (export_assign e st).2.signals = st.signals ∧
    (export_assign e st).2.break_flow = st.break_flow ∧
    (export_assign e st).2.current_if_mode = st.current_if_mode ∧
    (export_assign e st).2.current_statement = st.current_statement ∧
    (export_assign e st).2.level = st.level := by
  rcases hs : e.splitOn "=" with _ | ⟨a, _ | ⟨b, l⟩⟩ <;>
    simp [export_assign, hs]

theorem fn_insert_frame (f : Function) (st : Shell) :
    (fn_insert f st).signals = st.signals ∧
    (fn_insert f st).break_flow = st.break_flow ∧
    (fn_insert f st).current_if_mode = st.current_if_mode ∧
    (fn_insert f st).current_statement = st.current_statement ∧
    (fn_insert f st).level = st.level := by
  exact ⟨rfl, rfl, rfl, rfl, rfl⟩

theorem run_exec_inv (env : Env) : ∀ fuel call st out st',
    run env fuel call st = some (out, st') → exec_inv env st out st' := by
  intro fuel
  induction fuel with
  | zero => intro call st out st' h; simp [run] at h
  | succ fuel IH =>
    have IHk : ∀ l s o s', run env fuel (.stmts l) s = some (o, s') → exec_inv env s o s' :=
      fun l s o s' hh => IH _ s o s' hh
    intro call st out st' h
    cases call with
    | stmts statements =>
      cases statements with
      | nil =>
        simp only [run, Option.some.injEq, Prod.mk.injEq] at h
        obtain ⟨rfl, rfl⟩ := h
        exact ⟨⟨rfl, rfl⟩, Or.inl rfl, rfl⟩
      | cons statement rest =>
        cases statement with
        | Error number =>
          simp only [run] at h
          exact exec_inv_compose (poll_then_inv (IHk _) h) rfl rfl (Or.inl rfl) rfl
        | Let expression =>
          rcases hl : local_assign expression st with ⟨status, st1⟩
          simp only [run, hl] at h
          have hf := local_assign_frame expression st
          rw [hl] at hf
          exact exec_inv_compose (poll_then_inv (IHk _) h)
            hf.1 hf.2.1 (Or.inl hf.2.2.1) hf.2.2.2.1
        | Export expression =>
          rcases hl : export_assign expression st with ⟨status, st1⟩
          simp only [run, hl] at h
          have hf := export_assign_frame expression st
          rw [hl] at hf
          exact exec_inv_compose (poll_then_inv (IHk _) h)
            hf.1 hf.2.1 (Or.inl hf.2.2.1) hf.2.2.2.1
        | While expression statements =>
          rcases hc : collect_loops rest statements (st.level + 1) with ⟨body', rest', level'⟩
          simp only [run, hc] at h
          rcases hr : run env fuel (.whileLoop expression body') { st with level := level' }
            with _ | ⟨o2, s2⟩ <;> rw [hr] at h
          · simp at h
          · have hin := IH _ _ _ _ hr
            cases o2 with
            | exit c =>
              simp only [Option.some.injEq, Prod.mk.injEq] at h
              obtain ⟨rfl, rfl⟩ := h
              exact exec_inv_compose hin rfl rfl (Or.inl rfl) rfl
            | cond c =>
              obtain ⟨hsg, hm, hcs⟩ := hin
              cases c with
              | SigInt =>
                simp only [Option.some.injEq, Prod.mk.injEq] at h
                obtain ⟨rfl, rfl⟩ := h
                exact exec_inv_compose ⟨hsg, hm, hcs⟩ rfl rfl (Or.inl rfl) rfl
              | Break =>
                simp only [sig_report] at hsg
                exact exec_inv_compose (poll_then_inv (IHk _) h) hsg.1 hsg.2 hm hcs
              | Continue =>
                simp only [sig_report] at hsg
                exact exec_inv_compose (poll_then_inv (IHk _) h) hsg.1 hsg.2 hm hcs
              | NoOp =>
                simp only [sig_report] at hsg
                exact exec_inv_compose (poll_then_inv (IHk _) h) hsg.1 hsg.2 hm hcs
        | For vname values statements =>
          rcases hc : collect_loops rest statements (st.level + 1) with ⟨body', rest', level'⟩
          simp only [run, hc] at h
          rcases hr : run env fuel (for_call env vname values body') { st with level := level' }
            with _ | ⟨o2, s2⟩ <;> rw [hr] at h
          · simp at h
          · have hin := IH _ _ _ _ hr
            cases o2 with
            | exit c =>
              simp only [Option.some.injEq, Prod.mk.injEq] at h
              obtain ⟨rfl, rfl⟩ := h
              exact exec_inv_compose hin rfl rfl (Or.inl rfl) rfl
            | cond c =>
              obtain ⟨hsg, hm, hcs⟩ := hin
              cases c with
              | SigInt =>
                simp only [Option.some.injEq, Prod.mk.injEq] at h
                obtain ⟨rfl, rfl⟩ := h
                exact exec_inv_compose ⟨hsg, hm, hcs⟩ rfl rfl (Or.inl rfl) rfl
              | Break =>
                simp only [sig_report] at hsg
                exact exec_inv_compose (poll_then_inv (IHk _) h) hsg.1 hsg.2 hm hcs
              | Continue =>
                simp only [sig_report] at hsg
                exact exec_inv_compose (poll_then_inv (IHk _) h) hsg.1 hsg.2 hm hcs
              | NoOp =>
                simp only [sig_report] at hsg
                exact exec_inv_compose (poll_then_inv (IHk _) h) hsg.1 hsg.2 hm hcs
        | If expression success else_if failure =>
          rcases hc : collect_if rest success else_if failure (st.level + 1) 0
            with why | ⟨mode, su', ei', fa', rest', level'⟩
          · simp only [run, hc, Option.some.injEq, Prod.mk.injEq] at h
            obtain ⟨rfl, rfl⟩ := h
            exact ⟨⟨rfl, rfl⟩, Or.inr rfl, rfl⟩
          · simp only [run, hc] at h
            rcases hr : run env fuel (.ifStmt expression su' ei' fa') { st with level := level' }
              with _ | ⟨o2, s2⟩ <;> rw [hr] at h
            · simp at h
            · have hin := IH _ _ _ _ hr
              cases o2 with
              | exit c =>
                simp only [Option.some.injEq, Prod.mk.injEq] at h
                obtain ⟨rfl, rfl⟩ := h
                exact exec_inv_compose hin rfl rfl (Or.inl rfl) rfl
              | cond c =>
                obtain ⟨hsg, hm, hcs⟩ := hin
                cases c with
                | SigInt =>
                  simp only [Option.some.injEq, Prod.mk.injEq] at h
                  obtain ⟨rfl, rfl⟩ := h
                  exact exec_inv_compose ⟨hsg, hm, hcs⟩ rfl rfl (Or.inl rfl) rfl
                | Break =>
                  simp only [Option.some.injEq, Prod.mk.injEq] at h
                  obtain ⟨rfl, rfl⟩ := h
                  exact exec_inv_compose ⟨hsg, hm, hcs⟩ rfl rfl (Or.inl rfl) rfl
                | Continue =>
                  simp only [Option.some.injEq, Prod.mk.injEq] at h
                  obtain ⟨rfl, rfl⟩ := h
                  exact exec_inv_compose ⟨hsg, hm, hcs⟩ rfl rfl (Or.inl rfl) rfl
                | NoOp =>
                  simp only [sig_report] at hsg
                  exact exec_inv_compose (poll_then_inv (IHk _) h) hsg.1 hsg.2 hm hcs
        | Function name args description statements =>
          rcases hc : collect_loops rest statements (st.level + 1) with ⟨body', rest', level'⟩
          simp only [run, hc] at h
          exact exec_inv_compose (poll_then_inv (IHk _) h) rfl rfl (Or.inl rfl) rfl
        | Pipeline pipeline =>
          simp only [run] at h
          split_ifs at h with hcond
          · simp only [Option.some.injEq, Prod.mk.injEq] at h
            obtain ⟨rfl, rfl⟩ := h
            exact ⟨Or.inl ⟨rfl, rfl⟩, Or.inl rfl, rfl⟩
          · exact exec_inv_compose (poll_then_inv (IHk _) h) rfl rfl (Or.inl rfl) rfl
        | Break =>
          simp only [run, Option.some.injEq, Prod.mk.injEq] at h
          obtain ⟨rfl, rfl⟩ := h
          exact ⟨⟨rfl, rfl⟩, Or.inl rfl, rfl⟩
        | Continue =>
          simp only [run, Option.some.injEq, Prod.mk.injEq] at h
          obtain ⟨rfl, rfl⟩ := h
          exact ⟨⟨rfl, rfl⟩, Or.inl rfl, rfl⟩
        | Match expression cases =>
          rcases hc : collect_cases rest cases (st.level + 1) with ⟨cases', rest', level', errq⟩
          cases errq with
          | some why =>
            simp only [run, hc, Option.some.injEq, Prod.mk.injEq] at h
            obtain ⟨rfl, rfl⟩ := h
            exact ⟨⟨rfl, rfl⟩, Or.inr rfl, rfl⟩
          | none =>
            simp only [run, hc] at h
            rcases hr : run env fuel (.matchStmt expression cases') { st with level := level' }
              with _ | ⟨o2, s2⟩ <;> rw [hr] at h
            · simp at h
            · have hin := IH _ _ _ _ hr
              cases o2 with
              | exit c =>
                simp only [Option.some.injEq, Prod.mk.injEq] at h
                obtain ⟨rfl, rfl⟩ := h
                exact exec_inv_compose hin rfl rfl (Or.inl rfl) rfl
              | cond c =>
                obtain ⟨hsg, hm, hcs⟩ := hin
                cases c with
                | SigInt =>
                  simp only [Option.some.injEq, Prod.mk.injEq] at h
                  obtain ⟨rfl, rfl⟩ := h
                  exact exec_inv_compose ⟨hsg, hm, hcs⟩ rfl rfl (Or.inl rfl) rfl
                | Break =>
                  simp only [Option.some.injEq, Prod.mk.injEq] at h
                  obtain ⟨rfl, rfl⟩ := h
                  exact exec_inv_compose ⟨hsg, hm, hcs⟩ rfl rfl (Or.inl rfl) rfl
                | Continue =>
                  simp only [Option.some.injEq, Prod.mk.injEq] at h
                  obtain ⟨rfl, rfl⟩ := h
                  exact exec_inv_compose ⟨hsg, hm, hcs⟩ rfl rfl (Or.inl rfl) rfl
                | NoOp =>
                  simp only [sig_report] at hsg
                  exact exec_inv_compose (poll_then_inv (IHk _) h) hsg.1 hsg.2 hm hcs
        | ElseIfM elseif =>
          simp only [run] at h
          exact poll_then_inv (IHk _) h
        | Else =>
          simp only [run] at h
          exact poll_then_inv (IHk _) h
        | End =>
          simp only [run] at h
          exact poll_then_inv (IHk _) h
        | CaseM value =>
          simp only [run] at h
          exact poll_then_inv (IHk _) h
        | Default =>
          simp only [run] at h
          exact poll_then_inv (IHk _) h
    | whileLoop expression statements =>
      rcases hrp : run_pipeline expression st with ⟨r, st1⟩
      have hf := run_pipeline_frame expression st
      rw [hrp] at hf
      simp only [run, hrp] at h
      split_ifs at h with hr
      · rcases hr2 : run env fuel (.stmts statements) st1 with _ | ⟨o2, s2⟩ <;> rw [hr2] at h
        · simp at h
        · have hin := IH _ _ _ _ hr2
          cases o2 with
          | exit c =>
            simp only [Option.some.injEq, Prod.mk.injEq] at h
            obtain ⟨rfl, rfl⟩ := h
            exact exec_inv_compose hin hf.1 hf.2.1 (Or.inl hf.2.2.1) hf.2.2.2.1
          | cond c =>
            obtain ⟨hsg, hm, hcs⟩ := hin
            cases c with
            | SigInt =>
              simp only [Option.some.injEq, Prod.mk.injEq] at h
              obtain ⟨rfl, rfl⟩ := h
              exact exec_inv_compose ⟨hsg, hm, hcs⟩ hf.1 hf.2.1 (Or.inl hf.2.2.1) hf.2.2.2.1
            | Break =>
              simp only [Option.some.injEq, Prod.mk.injEq] at h
              obtain ⟨rfl, rfl⟩ := h
              simp only [sig_report] at hsg
              refine exec_inv_compose ⟨?_, hm, hcs⟩ hf.1 hf.2.1 (Or.inl hf.2.2.1) hf.2.2.2.1
              exact hsg
            | Continue =>
              simp only [sig_report] at hsg
              have h2 := IH _ _ _ _ h
              exact exec_inv_compose (exec_inv_compose h2 hsg.1 hsg.2 hm hcs)
                hf.1 hf.2.1 (Or.inl hf.2.2.1) hf.2.2.2.1
            | NoOp =>
              simp only [sig_report] at hsg
              have h2 := IH _ _ _ _ h
              exact exec_inv_compose (exec_inv_compose h2 hsg.1 hsg.2 hm hcs)
                hf.1 hf.2.1 (Or.inl hf.2.2.1) hf.2.2.2.1
      · simp only [Option.some.injEq, Prod.mk.injEq] at h
        obtain ⟨rfl, rfl⟩ := h
        exact ⟨⟨hf.1, hf.2.1⟩, Or.inl hf.2.2.1, hf.2.2.2.1⟩
    | forBind vname elems statements =>
      cases elems with
      | nil =>
        simp only [run, Option.some.injEq, Prod.mk.injEq] at h
        obtain ⟨rfl, rfl⟩ := h
        exact ⟨⟨rfl, rfl⟩, Or.inl rfl, rfl⟩
      | cons value elems' =>
        have hf := set_var_frame vname value st
        simp only [run] at h
        rcases hr2 : run env fuel (.stmts statements) (set_var vname value st)
          with _ | ⟨o2, s2⟩ <;> rw [hr2] at h
        · simp at h
        · have hin := IH _ _ _ _ hr2
          cases o2 with
          | exit c =>
            simp only [Option.some.injEq, Prod.mk.injEq] at h
            obtain ⟨rfl, rfl⟩ := h
            exact exec_inv_compose hin hf.1 hf.2.1 (Or.inl hf.2.2.1) hf.2.2.2.1
          | cond c =>
            obtain ⟨hsg, hm, hcs⟩ := hin
            cases c with
            | SigInt =>
              simp only [Option.some.injEq, Prod.mk.injEq] at h
              obtain ⟨rfl, rfl⟩ := h
              exact exec_inv_compose ⟨hsg, hm, hcs⟩ hf.1 hf.2.1 (Or.inl hf.2.2.1) hf.2.2.2.1
            | Break =>
              simp only [Option.some.injEq, Prod.mk.injEq] at h
              obtain ⟨rfl, rfl⟩ := h
              simp only [sig_report] at hsg
              exact exec_inv_compose ⟨hsg, hm, hcs⟩ hf.1 hf.2.1 (Or.inl hf.2.2.1) hf.2.2.2.1
            | Continue =>
              simp only [sig_report] at hsg
              have h2 := IH _ _ _ _ h
              exact exec_inv_compose (exec_inv_compose h2 hsg.1 hsg.2 hm hcs)
                hf.1 hf.2.1 (Or.inl hf.2.2.1) hf.2.2.2.1
            | NoOp =>
              simp only [sig_report] at hsg
              have h2 := IH _ _ _ _ h
              exact exec_inv_compose (exec_inv_compose h2 hsg.1 hsg.2 hm hcs)
                hf.1 hf.2.1 (Or.inl hf.2.2.1) hf.2.2.2.1
    | forNoBind elems statements =>
      cases elems with
      | nil =>
        simp only [run, Option.some.injEq, Prod.mk.injEq] at h
        obtain ⟨rfl, rfl⟩ := h
        exact ⟨⟨rfl, rfl⟩, Or.inl rfl, rfl⟩
      | cons value elems' =>
        simp only [run] at h
        rcases hr2 : run env fuel (.stmts statements) st with _ | ⟨o2, s2⟩ <;> rw [hr2] at h
        · simp at h
        · have hin := IH _ _ _ _ hr2
          cases o2 with
          | exit c =>
            simp only [Option.some.injEq, Prod.mk.injEq] at h
            obtain ⟨rfl, rfl⟩ := h
            exact hin
          | cond c =>
            obtain ⟨hsg, hm, hcs⟩ := hin
            cases c with
            | SigInt =>
              simp only [Option.some.injEq, Prod.mk.injEq] at h
              obtain ⟨rfl, rfl⟩ := h
              exact ⟨hsg, hm, hcs⟩
            | Break =>
              simp only [Option.some.injEq, Prod.mk.injEq] at h
              obtain ⟨rfl, rfl⟩ := h
              simp only [sig_report] at hsg
              exact ⟨hsg, hm, hcs⟩
            | Continue =>
              simp only [sig_report] at hsg
              have h2 := IH _ _ _ _ h
              exact exec_inv_compose h2 hsg.1 hsg.2 hm hcs
            | NoOp =>
              simp only [sig_report] at hsg
              have h2 := IH _ _ _ _ h
              exact exec_inv_compose h2 hsg.1 hsg.2 hm hcs
    | ifStmt expression success else_if failure =>
      rcases hrp : run_pipeline expression st with ⟨r, st1⟩
      have hf := run_pipeline_frame expression st
      rw [hrp] at hf
      simp only [run, hrp] at h
      split_ifs at h with hr
      · exact exec_inv_compose (IH _ _ _ _ h) hf.1 hf.2.1 (Or.inl hf.2.2.1) hf.2.2.2.1
      · exact exec_inv_compose (IH _ _ _ _ h) hf.1 hf.2.1 (Or.inl hf.2.2.1) hf.2.2.2.1
    | elseIfScan arms failure =>
      cases arms with
      | nil =>
        simp only [run] at h
        exact IH _ _ _ _ h
      | cons arm arms' =>
        rcases hrp : run_pipeline arm.expression st with ⟨r, st1⟩
        have hf := run_pipeline_frame arm.expression st
        rw [hrp] at hf
        simp only [run, hrp] at h
        split_ifs at h with hr
        · exact exec_inv_compose (IH _ _ _ _ h) hf.1 hf.2.1 (Or.inl hf.2.2.1) hf.2.2.2.1
        · exact exec_inv_compose (IH _ _ _ _ h) hf.1 hf.2.1 (Or.inl hf.2.2.1) hf.2.2.2.1
    | matchStmt expression cases =>
      rcases hsel : select_case env (env.expand expression) cases with _ | case <;>
        simp only [run, hsel] at h
      · simp only [Option.some.injEq, Prod.mk.injEq] at h
        obtain ⟨rfl, rfl⟩ := h
        exact ⟨⟨rfl, rfl⟩, Or.inl rfl, rfl⟩
      · exact IH _ _ _ _ h

theorem list_cons_self_absurd {α : Type} {l : List α} {a : α} (h : l = a :: l) : False := by
  have := congrArg List.length h
  simp at this

/-- C1: `execute_statements` returns `SigInt` exactly when its run consumed
a pending (non-fatal) signal from the queue or consumed a set `break_flow`
(clearing it before returning); and when the pending signal is fatal
(`handle_signal` returns true) the shell instead exits with that signal's
code.  (In the embedding, "a signal was observed during its run" is the
dequeue `st.signals = sig :: st'.signals`, and "break_flow was set during
its run" is its consumption `st.break_flow = true ∧ st'.break_flow =
false`; `break_flow` is only ever set from outside the executor.) -/
theorem c1_execute_statements_sigint_iff (env : Env) (fuel : Nat)
    (statements : List Statement) (st : Shell) (out : Outcome) (st' : Shell)
    (h : execute_statements env fuel statements st = some (out, st')) :
    (out = .cond .SigInt ↔
      ((∃ sig, st.signals = sig :: st'.signals ∧ env.fatal sig = false) ∨
       (st.break_flow = true ∧ st'.break_flow = false))) ∧
    (∀ sig, st.signals = sig :: st'.signals → env.fatal sig = true →
      out = .exit (env.signalCode sig)) := by
  obtain ⟨hsg, -, -⟩ := run_exec_inv env fuel _ st out st' h
  constructor
  · constructor
    · intro ho
      subst ho
      simp only [sig_report] at hsg
      rcases hsg with ⟨sig, h1, h2, _⟩ | ⟨h1, h2, _⟩
      · exact Or.inl ⟨sig, h1, h2⟩
      · exact Or.inr ⟨h1, h2⟩
    · intro hob
      cases out with
      | cond c =>
        cases c with
        | SigInt => rfl
        | Break =>
          exfalso
          simp only [sig_report] at hsg
          rcases hob with ⟨sig, h1, _⟩ | ⟨h1, h2⟩
          · exact list_cons_self_absurd (hsg.1 ▸ h1)
          · rw [hsg.2, h1] at h2; simp at h2
        | Continue =>
          exfalso
          simp only [sig_report] at hsg
          rcases hob with ⟨sig, h1, _⟩ | ⟨h1, h2⟩
          · exact list_cons_self_absurd (hsg.1 ▸ h1)
          · rw [hsg.2, h1] at h2; simp at h2
        | NoOp =>
          exfalso
          simp only [sig_report] at hsg
          rcases hob with ⟨sig, h1, _⟩ | ⟨h1, h2⟩
          · exact list_cons_self_absurd (hsg.1 ▸ h1)
          · rw [hsg.2, h1] at h2; simp at h2
      | exit c =>
        exfalso
        simp only [sig_report] at hsg
        rcases hsg with ⟨h1, h2⟩ | ⟨sig, h1, h2, h3, h4⟩
        · rcases hob with ⟨sig, hc, _⟩ | ⟨hb1, hb2⟩
          · exact list_cons_self_absurd (h1 ▸ hc)
          · rw [h2, hb1] at hb2; simp at hb2
        · rcases hob with ⟨sig', hc, hfat⟩ | ⟨hb1, hb2⟩
          · have : sig' = sig := by
              have := h1.symm.trans hc
              exact (List.cons.injEq _ _ _ _ ▸ this).1.symm
            rw [this] at hfat
            rw [h2] at hfat
            simp at hfat
          · rw [h4, hb1] at hb2; simp at hb2
  · intro sig hcons hfatal
    cases out with
    | cond c =>
      exfalso
      cases c with
      | SigInt =>
        simp only [sig_report] at hsg
        rcases hsg with ⟨sig', h1, h2, _⟩ | ⟨_, _, h3⟩
        · have : sig = sig' := by
            have := hcons.symm.trans h1
            exact (List.cons.injEq _ _ _ _ ▸ this).1
          rw [this, h2] at hfatal
          simp at hfatal
        · exact list_cons_self_absurd (h3 ▸ hcons)
      | Break =>
        simp only [sig_report] at hsg
        exact list_cons_self_absurd (hsg.1 ▸ hcons)
      | Continue =>
        simp only [sig_report] at hsg
        exact list_cons_self_absurd (hsg.1 ▸ hcons)
      | NoOp =>
        simp only [sig_report] at hsg
        exact list_cons_self_absurd (hsg.1 ▸ hcons)
    | exit c =>
      simp only [sig_report] at hsg
      rcases hsg with ⟨h1, _⟩ | ⟨sig', h1, h2, h3, _⟩
      · exact absurd (h1 ▸ hcons) (fun hh => list_cons_self_absurd hh)
      · have : sig = sig' := by
          have := hcons.symm.trans h1
          exact (List.cons.injEq _ _ _ _ ▸ this).1
        rw [h3, ← this]

/-- Concrete environment for witnesses: no flags, no fatal signals, the
word expander returns the word itself, `for` values resolve to the word
list itself. -/
def w_env : Env := ⟨0, fun _ => false, fun _ => 0, fun s => [s], fun vs => .Multiple vs⟩

/-- Concrete clean shell state for witnesses. -/
def w_st : Shell := ⟨0, .Default, 0, false, 0, [], [], [], [], [], []⟩

theorem c1_execute_statements_sigint_iff_witness :
    (Outcome.cond Condition.SigInt = Outcome.cond Condition.SigInt ↔
      ((∃ sig, ({ w_st with signals := [7] } : Shell).signals =
          sig :: ({ w_st with previous_status := 1 } : Shell).signals ∧
          w_env.fatal sig = false) ∨
       (({ w_st with signals := [7] } : Shell).break_flow = true ∧
        ({ w_st with previous_status := 1 } : Shell).break_flow = false))) :=
  (c1_execute_statements_sigint_iff w_env 2 [.Error 1] { w_st with signals := [7] }
    (.cond .SigInt) { w_st with previous_status := 1 } (by rfl)).1

theorem loops_no_break_continue (env : Env) : ∀ fuel,
    (∀ e body st out st', run env fuel (.whileLoop e body) st = some (out, st') →
      out ≠ .cond .Break ∧ out ≠ .cond .Continue) ∧
    (∀ v elems body st out st', run env fuel (.forBind v elems body) st = some (out, st') →
      out ≠ .cond .Break ∧ out ≠ .cond .Continue) ∧
    (∀ elems body st out st', run env fuel (.forNoBind elems body) st = some (out, st') →
      out ≠ .cond .Break ∧ out ≠ .cond .Continue) := by
  intro fuel
  induction fuel with
  | zero =>
    refine ⟨?_, ?_, ?_⟩ <;> intro _ _ _ _ _ <;> first
      | (intro h; simp [run] at h)
      | (intro _ h; simp [run] at h)
  | succ fuel IH =>
    refine ⟨?_, ?_, ?_⟩
    · intro e body st out st' h
      rcases hrp : run_pipeline e st with ⟨r, st1⟩
      simp only [run, hrp] at h
      split_ifs at h with hr
      · rcases hr2 : run env fuel (.stmts body) st1 with _ | ⟨o2, s2⟩ <;> rw [hr2] at h
        · simp at h
        · cases o2 with
          | exit c =>
            simp only [Option.some.injEq, Prod.mk.injEq] at h
            obtain ⟨rfl, rfl⟩ := h
            exact ⟨by simp, by simp⟩
          | cond c =>
            cases c with
            | SigInt =>
              simp only [Option.some.injEq, Prod.mk.injEq] at h
              obtain ⟨rfl, rfl⟩ := h
              exact ⟨by simp, by simp⟩
            | Break =>
              simp only [Option.some.injEq, Prod.mk.injEq] at h
              obtain ⟨rfl, rfl⟩ := h
              exact ⟨by simp, by simp⟩
            | Continue => exact IH.1 _ _ _ _ _ h
            | NoOp => exact IH.1 _ _ _ _ _ h
      · simp only [Option.some.injEq, Prod.mk.injEq] at h
        obtain ⟨rfl, rfl⟩ := h
        exact ⟨by simp, by simp⟩
    · intro v elems body st out st' h
      cases elems with
      | nil =>
        simp only [run, Option.some.injEq, Prod.mk.injEq] at h
        obtain ⟨rfl, rfl⟩ := h
        exact ⟨by simp, by simp⟩
      | cons x elems' =>
        simp only [run] at h
        rcases hr2 : run env fuel (.stmts body) (set_var v x st) with _ | ⟨o2, s2⟩ <;>
          rw [hr2] at h
        · simp at h
        · cases o2 with
          | exit c =>
            simp only [Option.some.injEq, Prod.mk.injEq] at h
            obtain ⟨rfl, rfl⟩ := h
            exact ⟨by simp, by simp⟩
          | cond c =>
            cases c with
            | SigInt =>
              simp only [Option.some.injEq, Prod.mk.injEq] at h
              obtain ⟨rfl, rfl⟩ := h
              exact ⟨by simp, by simp⟩
            | Break =>
              simp only [Option.some.injEq, Prod.mk.injEq] at h
              obtain ⟨rfl, rfl⟩ := h
              exact ⟨by simp, by simp⟩
            | Continue => exact IH.2.1 _ _ _ _ _ _ h
            | NoOp => exact IH.2.1 _ _ _ _ _ _ h
    · intro elems body st out st' h
      cases elems with
      | nil =>
        simp only [run, Option.some.injEq, Prod.mk.injEq] at h
        obtain ⟨rfl, rfl⟩ := h
        exact ⟨by simp, by simp⟩
      | cons x elems' =>
        simp only [run] at h
        rcases hr2 : run env fuel (.stmts body) st with _ | ⟨o2, s2⟩ <;> rw [hr2] at h
        · simp at h
        · cases o2 with
          | exit c =>
            simp only [Option.some.injEq, Prod.mk.injEq] at h
            obtain ⟨rfl, rfl⟩ := h
            exact ⟨by simp, by simp⟩
          | cond c =>
            cases c with
            | SigInt =>
              simp only [Option.some.injEq, Prod.mk.injEq] at h
              obtain ⟨rfl, rfl⟩ := h
              exact ⟨by simp, by simp⟩
            | Break =>
              simp only [Option.some.injEq, Prod.mk.injEq] at h
              obtain ⟨rfl, rfl⟩ := h
              exact ⟨by simp, by simp⟩
            | Continue => exact IH.2.2 _ _ _ _ _ h
            | NoOp => exact IH.2.2 _ _ _ _ _ h

/-- C2: a `Break` or `Continue` produced by a loop body is consumed by the
nearest enclosing loop: `execute_while` and `execute_for` never return
`Break` or `Continue` (they return `NoOp` when the loop finishes, and only
propagate `SigInt` or a process exit); when the guard succeeded and the
body returns `Break` the loop stops (returning `NoOp` with the body's
state), and when the body returns `Continue` the loop proceeds with the
next iteration. -/
theorem c2_loops_consume_break_continue (env : Env) (fuel : Nat) :
    (∀ e body st out st', execute_while env fuel e body st = some (out, st') →
      out ≠ .cond .Break ∧ out ≠ .cond .Continue) ∧
    (∀ v values body st out st', execute_for env fuel v values body st = some (out, st') →
      out ≠ .cond .Break ∧ out ≠ .cond .Continue) ∧
    (∀ e body st st1 st2, run_pipeline e st = (some SUCCESS, st1) →
      execute_statements env fuel body st1 = some (.cond .Break, st2) →
      execute_while env (fuel + 1) e body st = some (.cond .NoOp, st2)) ∧
    (∀ e body st st1 st2, run_pipeline e st = (some SUCCESS, st1) →
      execute_statements env fuel body st1 = some (.cond .Continue, st2) →
      execute_while env (fuel + 1) e body st = execute_while env fuel e body st2) ∧
    (∀ v x elems body st st2,
      execute_statements env fuel body (set_var v x st) = some (.cond .Break, st2) →
      run env (fuel + 1) (.forBind v (x :: elems) body) st = some (.cond .NoOp, st2)) ∧
    (∀ v x elems body st st2,
      execute_statements env fuel body (set_var v x st) = some (.cond .Continue, st2) →
      run env (fuel + 1) (.forBind v (x :: elems) body) st =
        run env fuel (.forBind v elems body) st2) := by
  refine ⟨fun e body st out st' h => (loops_no_break_continue env fuel).1 _ _ _ _ _ h,
    ?_, ?_, ?_, ?_, ?_⟩
  · intro v values body st out st' h
    unfold execute_for for_call at h
    simp only [] at h
    split at h <;> split_ifs at h <;>
      first
        | exact (loops_no_break_continue env fuel).2.2 _ _ _ _ _ h
        | exact (loops_no_break_continue env fuel).2.1 _ _ _ _ _ _ h
  · intro e body st st1 st2 hrp hb
    unfold execute_while execute_statements at *
    simp only [run, hrp]
    simp only [hb]
    simp
  · intro e body st st1 st2 hrp hb
    unfold execute_while execute_statements at *
    simp only [run, hrp]
    simp only [hb]
    simp
  · intro v x elems body st st2 hb
    unfold execute_statements at hb
    simp only [run, hb]
  · intro v x elems body st st2 hb
    unfold execute_statements at hb
    simp only [run, hb]

theorem c2_loops_consume_break_continue_witness :
    Outcome.cond Condition.NoOp ≠ Outcome.cond Condition.Break ∧
    Outcome.cond Condition.NoOp ≠ Outcome.cond Condition.Continue :=
  (c2_loops_consume_break_continue w_env 3).1 ⟨0⟩ [.Break] { w_st with pipeRes := [some 0] }
    (.cond .NoOp) { w_st with previous_status := 0 } (by rfl)

/-- C3: with the `ERR_EXIT` flag set, a pipeline whose run leaves a
non-successful `previous_status` makes the shell exit immediately with that
status — both when the pipeline is executed inside a body at any nesting
depth (`execute_statements`, which is the executor for every nested body)
and at top level (`execute_toplevel`). -/
theorem c3_err_exit_on_failed_pipeline (env : Env) (fuel : Nat) (p : Pipeline)
    (rest : List Statement) (st : Shell)
    (hflag : env.flags &&& ERR_EXIT ≠ 0)
    (hst : (run_pipeline p st).2.previous_status ≠ SUCCESS) :
    execute_statements env (fuel + 1) (.Pipeline p :: rest) st =
      some (.exit (run_pipeline p st).2.previous_status, (run_pipeline p st).2) ∧
    execute_toplevel env fuel (.Pipeline p) rest st =
      some (.exited (run_pipeline p st).2.previous_status (run_pipeline p st).2) := by
  constructor
  · unfold execute_statements
    simp only [run]
    rw [if_pos ⟨hflag, hst⟩]
  · unfold execute_toplevel
    simp only []
    rw [if_pos ⟨hflag, hst⟩]

/-- Concrete environment with the `ERR_EXIT` flag set. -/
def w_env_ee : Env := ⟨1, fun _ => false, fun _ => 0, fun s => [s], fun vs => .Multiple vs⟩

theorem c3_err_exit_on_failed_pipeline_witness :
    execute_statements w_env_ee 1 [.Pipeline ⟨0⟩] { w_st with pipeRes := [some 2] } =
      some (.exit (run_pipeline ⟨0⟩ { w_st with pipeRes := [some 2] }).2.previous_status,
        (run_pipeline ⟨0⟩ { w_st with pipeRes := [some 2] }).2) :=
  (c3_err_exit_on_failed_pipeline w_env_ee 0 ⟨0⟩ [] { w_st with pipeRes := [some 2] }
    (by decide) (by decide)).1

/-- C8: `on_command` clears `break_flow` on entry, before parsing or
executing anything: its behaviour is entirely independent of the incoming
`break_flow`, so a break request raised before the call is discarded and
can never be converted into a `SigInt` unwind for the new line. -/
theorem c8_on_command_clears_break_flow (env : Env) (fuel : Nat)
    (statements : List Statement) (st : Shell) :
    on_command env fuel statements st =
      on_command env fuel statements { st with break_flow := false } := by
  cases st
  rfl

/-- C7: when `on_command` finds `current_if_mode = 4` after collecting into
a pending `If` (the mode a failed `collect_if` leaves behind), it treats it
as a terminal error state: the partial statement is discarded
(`current_statement` becomes `Default`), `level` and `current_if_mode` are
reset to 0, the diagnostic is the only effect, and nothing further from the
line is executed (the result state is exactly the reset state). -/
theorem c7_if_mode4_is_terminal (env : Env) (fuel : Nat)
    (statements : List Statement) (st : Shell) (e : Pipeline)
    (su : List Statement) (ei : List ElseIf) (fa : List Statement) (why : String)
    (hlvl : st.level ≠ 0)
    (hcs : st.current_statement = .If e su ei fa)
    (herr : collect_if statements su ei fa st.level st.current_if_mode = .error why) :
    on_command env fuel statements st =
      some (none, { st with
        break_flow := false, errors := st.errors ++ [why],
        level := 0, current_if_mode := 0, current_statement := .Default }) := by
  unfold on_command
  simp only [hcs, herr]
  rw [if_neg hlvl]
  simp

/-- C9: when `execute_statements` meets a nested `If` (or `Match`) mid-body
and the corresponding collector fails, it records the diagnostic, resets
`level` and `current_if_mode` to 0, and returns `Condition.Break` without
executing the malformed compound: the result state differs from the input
only by the appended diagnostic and the reset counters, so an enclosing
loop stops as though a `break` statement had run. -/
theorem c9_nested_collector_failure_breaks (env : Env) (fuel : Nat) (st : Shell) :
    (∀ rest e su ei fa why,
      collect_if rest su ei fa (st.level + 1) 0 = .error why →
      execute_statements env (fuel + 1) (.If e su ei fa :: rest) st =
        some (.cond .Break,
          { st with errors := st.errors ++ [why], level := 0, current_if_mode := 0 })) ∧
    (∀ rest ex cases cases' rest' level' why,
      collect_cases rest cases (st.level + 1) = (cases', rest', level', some why) →
      execute_statements env (fuel + 1) (.Match ex cases :: rest) st =
        some (.cond .Break,
          { st with errors := st.errors ++ [why], level := 0, current_if_mode := 0 })) := by
  constructor
  · intro rest e su ei fa why herr
    unfold execute_statements
    simp only [run, herr]
  · intro rest ex cases cases' rest' level' why hm
    unfold execute_statements
    simp only [run, hm]

theorem c7_if_mode4_is_terminal_witness :
    on_command w_env 3 [.ElseIfM ⟨⟨1⟩, []⟩]
      { w_st with
        level := 1, current_statement := .If ⟨0⟩ [] [] [],
        current_if_mode := 3 } =
      some (none, { w_st with
        break_flow := false,
        errors := ["ion: syntax error: else if block given after else"],
        level := 0, current_if_mode := 0, current_statement := .Default }) :=
  c7_if_mode4_is_terminal w_env 3 [.ElseIfM ⟨⟨1⟩, []⟩]
    { w_st with level := 1, current_statement := .If ⟨0⟩ [] [] [], current_if_mode := 3 }
    ⟨0⟩ [] [] [] "ion: syntax error: else if block given after else"
    (by decide) rfl (by rfl)

theorem c9_nested_collector_failure_breaks_witness :
    execute_statements w_env 2 [.If ⟨0⟩ [] [] [] , .Else, .ElseIfM ⟨⟨1⟩, []⟩] w_st =
      some (.cond .Break,
        { w_st with
          errors := ["ion: syntax error: else if block given after else"],
          level := 0, current_if_mode := 0 }) :=
  (c9_nested_collector_failure_breaks w_env 1 w_st).1 [.Else, .ElseIfM ⟨⟨1⟩, []⟩]
    ⟨0⟩ [] [] [] "ion: syntax error: else if block given after else" (by rfl)

/-- C10: in `on_command`'s pending-completion path (the nesting closed
during this call), a `SigInt` from the completed `While` or `For` makes
`on_command` return at once, leaving the leftover statements of the line
undrained; whereas the `Condition` of a completed `If` or `Match` is
discarded — even a `SigInt` — and the leftover statements still drain
through the toplevel loop. -/
theorem c10_completion_sigint_vs_discard (env : Env) (fuel : Nat) (st : Shell)
    (statements : List Statement)
    (hlvl : st.level ≠ 0) (hmode : st.current_if_mode ≠ 4) :
    (∀ e body body' rest' st3,
      st.current_statement = .While e body →
      collect_loops statements body st.level = (body', rest', 0) →
      execute_while env fuel e body'
        { st with
          break_flow := false, current_statement := .Default, level := 0 } =
        some (.cond .SigInt, st3) →
      on_command env fuel statements st = some (none, st3)) ∧
    (∀ vn vals body body' rest' st3,
      st.current_statement = .For vn vals body →
      collect_loops statements body st.level = (body', rest', 0) →
      execute_for env fuel vn vals body'
        { st with
          break_flow := false, current_statement := .Default, level := 0 } =
        some (.cond .SigInt, st3) →
      on_command env fuel statements st = some (none, st3)) ∧
    (∀ e su ei fa mode su' ei' fa' rest' c st3,
      st.current_statement = .If e su ei fa →
      collect_if statements su ei fa st.level st.current_if_mode =
        .ok (mode, su', ei', fa', rest', 0) →
      mode ≠ 4 →
      execute_if env fuel e su' ei' fa'
        { st with
          break_flow := false, current_statement := .Default, level := 0,
          current_if_mode := mode } = some (.cond c, st3) →
      on_command env fuel statements st = run_toplevel env fuel fuel rest' st3) ∧
    (∀ ex cases cases' rest' c st3,
      st.current_statement = .Match ex cases →
      collect_cases statements cases st.level = (cases', rest', 0, none) →
      execute_match env fuel ex cases'
        { st with
          break_flow := false, current_statement := .Default, level := 0 } =
        some (.cond c, st3) →
      on_command env fuel statements st = run_toplevel env fuel fuel rest' st3) := by
  refine ⟨?_, ?_, ?_, ?_⟩
  · intro e body body' rest' st3 hcs hcol hrun
    unfold execute_while at hrun
    unfold on_command
    simp only [hcs, hcol]
    rw [if_neg hlvl]
    rw [if_neg hmode]
    simp only [hrun]
    simp
  · intro vn vals body body' rest' st3 hcs hcol hrun
    unfold execute_for at hrun
    unfold on_command
    simp only [hcs, hcol]
    rw [if_neg hlvl]
    rw [if_neg hmode]
    simp only [hrun]
    simp
  · intro e su ei fa mode su' ei' fa' rest' c st3 hcs hcol hmode4 hrun
    unfold execute_if at hrun
    unfold on_command
    simp only [hcs, hcol]
    rw [if_neg hlvl]
    rw [if_neg hmode4]
    simp only [hrun]
    cases c <;> simp
  · intro ex cases cases' rest' c st3 hcs hcol hrun
    unfold execute_match at hrun
    unfold on_command
    simp only [hcs, hcol]
    rw [if_neg hlvl]
    rw [if_neg hmode]
    simp only [hrun]
    cases c <;> simp

theorem c10_completion_sigint_vs_discard_witness :
    on_command w_env 5 [.End]
      { w_st with
        level := 1, current_statement := .While ⟨0⟩ [.Error 1],
        signals := [3], pipeRes := [some 0] } =
      some (none, { w_st with previous_status := 1 }) :=
  (c10_completion_sigint_vs_discard w_env 5
    { w_st with
      level := 1, current_statement := .While ⟨0⟩ [.Error 1],
      signals := [3], pipeRes := [some 0] } [.End]
    (by decide) (by decide)).1
    ⟨0⟩ [.Error 1] [.Error 1] [] { w_st with previous_status := 1 }
    rfl (by rfl) (by rfl)

/-- Following the spec's words (§4.3 `execute_match`): a case with no
pattern (the default arm) matches unconditionally; a case with a pattern
matches iff some element of the expanded pattern equals some element of
the expanded expression.  Used as the refinement target for `select_case`. -/
def spec_case_matches (env : Env) (value : List String) (case : Case) : Bool :=
  match case.value with
  | none => true
  | some v => (env.expand v).any (fun x => value.contains x)

theorem select_case_eq_find (env : Env) (value : List String) :
    ∀ cases, select_case env value cases = cases.find? (spec_case_matches env value) := by
  intro cases
  induction cases with
  | nil => rfl
  | cons case rest IH =>
    rcases case with ⟨v, body⟩
    cases v with
    | none => rfl
    | some p =>
      have hsp : spec_case_matches env value ⟨some p, body⟩ =
          case_matches (env.expand p) value := rfl
      cases hb : case_matches (env.expand p) value with
      | true =>
        rw [List.find?_cons_of_pos _ (hsp.trans hb)]
        simp only [select_case, Case.value]
        rw [if_pos hb]
      | false =>
        rw [List.find?_cons_of_neg _ (by rw [hsp, hb]; exact Bool.false_ne_true)]
        simp only [select_case, Case.value]
        rw [if_neg (by rw [hb]; exact Bool.false_ne_true)]
        exact IH

/-- C5: `execute_match` expands the expression into an array and scans the
cases in declaration order: the first case whose pattern is absent (default
arm) or whose expanded pattern shares an element with the expanded
expression is the one executed, later cases are never considered, its
body's `Condition` is returned, and `NoOp` is returned when no case
matches. -/
theorem c5_execute_match_first_case (env : Env) (fuel : Nat) (ex : String)
    (cases : List Case) (st : Shell) :
    (execute_match env (fuel + 1) ex cases st =
      match cases.find? (spec_case_matches env (env.expand ex)) with
      | none => some (.cond .NoOp, st)
      | some case => execute_statements env fuel case.statements st) ∧
    (∀ value body, spec_case_matches env value ⟨none, body⟩ = true) ∧
    (∀ value p body, spec_case_matches env value ⟨some p, body⟩ = true ↔
      ∃ x, x ∈ env.expand p ∧ x ∈ value) := by
  refine ⟨?_, ?_, ?_⟩
  · unfold execute_match execute_statements
    simp only [run]
    rw [select_case_eq_find]
  · intro value body
    rfl
  · intro value p body
    simp [spec_case_matches, Case.value, List.any_eq_true]

/-- Following the spec's words (§4.3 `execute_for`): iterate the resolved
elements in order; for each element, bind it to the loop variable exactly
when one is given (`some v`), then execute the (fresh copy of the) body.
`Break` stops the loop, `SigInt` propagates and so do process exits, and an
exhausted element list yields `NoOp`.  Refinement target for `execute_for`.
-/
def spec_for_loop (env : Env) : Nat → Option String → List String → List Statement →
    Shell → Option (Outcome × Shell)
  | 0, _, _, _, _ => none
  | _ + 1, _, [], _, st => some (.cond .NoOp, st)
  | fuel + 1, ov, x :: elems, body, st =>
    let st1 := match ov with
      | some v => set_var v x st
      | none => st
    match run env fuel (.stmts body) st1 with
    | none => none
    | some (.cond .Break, st2) => some (.cond .NoOp, st2)
    | some (.cond .SigInt, st2) => some (.cond .SigInt, st2)
    | some (.exit c, st2) => some (.exit c, st2)
    | some (.cond .Continue, st2) => spec_for_loop env fuel ov elems body st2
    | some (.cond .NoOp, st2) => spec_for_loop env fuel ov elems body st2

/-- One unrolling of `spec_for_loop` after the binding step: execute the
body once from `st1`, stop on `Break` (returning `NoOp`), propagate
`SigInt` and exits, and otherwise continue over the remaining elements. -/
def spec_for_body_then (env : Env) (fuel : Nat) (ov : Option String)
    (elems : List String) (body : List Statement) (st1 : Shell) :
    Option (Outcome × Shell) :=
  match run env fuel (.stmts body) st1 with
  | none => none
  | some (.cond .Break, st2) => some (.cond .NoOp, st2)
  | some (.cond .SigInt, st2) => some (.cond .SigInt, st2)
  | some (.exit c, st2) => some (.exit c, st2)
  | some (.cond .Continue, st2) => spec_for_loop env fuel ov elems body st2
  | some (.cond .NoOp, st2) => spec_for_loop env fuel ov elems body st2

/-- The element list an `execute_for` iterates, per resolved
`ForExpression` kind: the explicit words, the split lines, or the decimal
renderings of the half-open range. -/
def for_elems (env : Env) (values : List String) : List String :=
  match env.forExpr values with
  | .Multiple vals => vals
  | .Normal s => rust_lines s
  | .Range a b => range_strings a b

theorem forBind_eq_spec (env : Env) : ∀ fuel v elems body st,
    run env fuel (.forBind v elems body) st = spec_for_loop env fuel (some v) elems body st := by
  intro fuel
  induction fuel with
  | zero => intro v elems body st; rfl
  | succ fuel IH =>
    intro v elems body st
    cases elems with
    | nil => rfl
    | cons x elems' =>
      simp only [run, spec_for_loop]
      rcases hr : run env fuel (.stmts body) (set_var v x st) with _ | ⟨o2, s2⟩
      · rfl
      · cases o2 with
        | exit c => rfl
        | cond c => cases c <;> simp only [IH]

theorem forNoBind_eq_spec (env : Env) : ∀ fuel elems body st,
    run env fuel (.forNoBind elems body) st = spec_for_loop env fuel none elems body st := by
  intro fuel
  induction fuel with
  | zero => intro elems body st; rfl
  | succ fuel IH =>
    intro elems body st
    cases elems with
    | nil => rfl
    | cons x elems' =>
      simp only [run, spec_for_loop]
      rcases hr : run env fuel (.stmts body) st with _ | ⟨o2, s2⟩
      · rfl
      · cases o2 with
        | exit c => rfl
        | cond c => cases c <;> simp only [IH]

/-- C6: `execute_for` refines the spec's loop: it iterates exactly the
resolved element list, binding the loop variable before each body run iff
the variable is not `"_"` (the `some v` versus `none` head of the spec
loop, whose unrollings are the last two conjuncts); a `Range(start, stop)`
resolution iterates exactly the decimal strings of the half-open range
`[start, stop)`, in order, and performs zero iterations when
`stop ≤ start`. -/
theorem c6_execute_for_range_and_binding (env : Env) (fuel : Nat) :
    (∀ v values body st, execute_for env fuel v values body st =
      spec_for_loop env fuel (if v = "_" then none else some v)
        (for_elems env values) body st) ∧
    (∀ values a b, env.forExpr values = .Range a b →
      for_elems env values = range_strings a b) ∧
    (∀ a b, b ≤ a → range_strings a b = []) ∧
    (∀ a b, a < b → range_strings a b = toString a :: range_strings (a + 1) b) ∧
    (∀ ov body st, spec_for_loop env (fuel + 1) ov [] body st = some (.cond .NoOp, st)) ∧
    (∀ v x elems body st,
      spec_for_loop env (fuel + 1) (some v) (x :: elems) body st =
        spec_for_body_then env fuel (some v) elems body (set_var v x st)) ∧
    (∀ x elems body st,
      spec_for_loop env (fuel + 1) none (x :: elems) body st =
        spec_for_body_then env fuel none elems body st) := by
  refine ⟨?_, ?_, ?_, ?_, ?_, ?_, ?_⟩
  · intro v values body st
    unfold execute_for for_call for_elems
    rcases hf : env.forExpr values with vals | s | ⟨a, b⟩ <;>
      by_cases hv : v = "_" <;>
      simp [hv, forBind_eq_spec, forNoBind_eq_spec]
  · intro values a b hf
    unfold for_elems
    rw [hf]
  · intro a b hab
    unfold range_strings
    have : b - a = 0 := Nat.sub_eq_zero_of_le hab
    rw [this]
    rfl
  · intro a b hab
    unfold range_strings
    have : b - a = (b - (a + 1)) + 1 := by omega
    rw [this, List.range'_succ]
    rfl
  · intro ov body st
    rfl
  · intro v x elems body st
    rfl
  · intro x elems body st
    rfl

/-- Concrete environment whose `for` values resolve to the range `[1, 3)`. -/
def w_env_range : Env := ⟨0, fun _ => false, fun _ => 0, fun s => [s], fun _ => .Range 1 3⟩

theorem c6_execute_for_range_and_binding_witness :
    for_elems w_env_range ["1..3"] = range_strings 1 3 :=
  (c6_execute_for_range_and_binding w_env_range 1).2.1 ["1..3"] 1 3 rfl

theorem shell_eta_mode (s : Shell) : { s with current_if_mode := s.current_if_mode } = s := by
  cases s; rfl

theorem shell_eta_bf {s : Shell} (h : s.break_flow = false) :
    { s with break_flow := false } = s := by
  cases s
  simp at h
  rw [h]

/-- Terminal shapes of `collect_loops`: it either consumed the whole input
(empty leftover) or closed the block (level 0). -/
theorem collect_loops_shape : ∀ xs body lvl b zs l,
    collect_loops xs body lvl = (b, zs, l) → zs = [] ∨ l = 0 := by
  intro xs
  induction xs with
  | nil =>
    intro body lvl b zs l h
    simp only [collect_loops, Prod.mk.injEq] at h
    obtain ⟨rfl, rfl, rfl⟩ := h
    exact Or.inl rfl
  | cons x xs' IH =>
    intro body lvl b zs l h
    simp only [collect_loops] at h
    by_cases hz : step_level x lvl = 0
    · rw [if_pos hz] at h
      simp only [Prod.mk.injEq] at h
      obtain ⟨-, -, rfl⟩ := h
      exact Or.inr rfl
    · rw [if_neg hz] at h
      exact IH _ _ _ _ _ h

theorem collect_loops_append_closed : ∀ xs ys body lvl b zs,
    lvl ≠ 0 → collect_loops xs body lvl = (b, zs, 0) →
    collect_loops (xs ++ ys) body lvl = (b, zs ++ ys, 0) := by
  intro xs
  induction xs with
  | nil =>
    intro ys body lvl b zs h0 h
    simp only [collect_loops, Prod.mk.injEq] at h
    obtain ⟨-, -, hl⟩ := h
    exact absurd hl h0
  | cons x xs' IH =>
    intro ys body lvl b zs h0 h
    simp only [collect_loops, List.cons_append] at h ⊢
    by_cases hz : step_level x lvl = 0
    · rw [if_pos hz] at h ⊢
      simp only [Prod.mk.injEq] at h
      obtain ⟨rfl, rfl, -⟩ := h
      rfl
    · rw [if_neg hz] at h ⊢
      exact IH _ _ _ _ _ hz h

theorem collect_loops_append_pending : ∀ xs ys body lvl b l,
    lvl ≠ 0 → collect_loops xs body lvl = (b, [], l) → l ≠ 0 →
    collect_loops (xs ++ ys) body lvl = collect_loops ys b l := by
  intro xs
  induction xs with
  | nil =>
    intro ys body lvl b l h0 h hl
    simp only [collect_loops, Prod.mk.injEq] at h
    obtain ⟨rfl, -, rfl⟩ := h
    rfl
  | cons x xs' IH =>
    intro ys body lvl b l h0 h hl
    simp only [collect_loops, List.cons_append] at h ⊢
    by_cases hz : step_level x lvl = 0
    · rw [if_pos hz] at h
      simp only [Prod.mk.injEq] at h
      obtain ⟨-, -, hcontra⟩ := h
      exact absurd hcontra.symm hl
    · rw [if_neg hz] at h ⊢
      exact IH _ _ _ _ _ hz h hl

theorem collect_if_append_error : ∀ xs ys su ei fa lvl m why,
    collect_if xs su ei fa lvl m = .error why →
    collect_if (xs ++ ys) su ei fa lvl m = .error why := by
  intro xs
  induction xs with
  | nil =>
    intro ys su ei fa lvl m why h
    simp [collect_if] at h
  | cons x xs' IH =>
    intro ys su ei fa lvl m why h
    simp only [collect_if, List.cons_append] at h ⊢
    split at h
    · split_ifs at h ⊢ with h1 h2
      · exact h
      · exact IH _ _ _ _ _ _ _ h
      · exact IH _ _ _ _ _ _ _ h
    · split_ifs at h ⊢ with h1 h2
      · exact h
      · exact IH _ _ _ _ _ _ _ h
      · exact IH _ _ _ _ _ _ _ h
    · split_ifs at h ⊢ with h1
      exact IH _ _ _ _ _ _ _ h
    · exact IH _ _ _ _ _ _ _ h

theorem collect_if_shape : ∀ xs su ei fa lvl m m' su' ei' fa' zs l',
    lvl ≠ 0 → collect_if xs su ei fa lvl m = .ok (m', su', ei', fa', zs, l') →
    l' ≠ 0 → zs = [] := by
  intro xs
  induction xs with
  | nil =>
    intro su ei fa lvl m m' su' ei' fa' zs l' h0 h hl
    simp only [collect_if, Except.ok.injEq, Prod.mk.injEq] at h
    exact h.2.2.2.2.1.symm
  | cons x xs' IH =>
    intro su ei fa lvl m m' su' ei' fa' zs l' h0 h hl
    simp only [collect_if] at h
    split at h
    · split_ifs at h with h1 h2
      · exact IH _ _ _ _ _ _ _ _ _ _ _ h0 h hl
      · exact IH _ _ _ _ _ _ _ _ _ _ _ h0 h hl
    · split_ifs at h with h1 h2
      · exact IH _ _ _ _ _ _ _ _ _ _ _ h0 h hl
      · exact IH _ _ _ _ _ _ _ _ _ _ _ h0 h hl
    · split_ifs at h with h1
      · simp only [Except.ok.injEq, Prod.mk.injEq] at h
        exact absurd h.2.2.2.2.2.symm hl
      · exact IH _ _ _ _ _ _ _ _ _ _ _ h1 h hl
    · by_cases hob : opens_block x = true
      · rw [if_pos hob] at h
        exact IH _ _ _ _ _ _ _ _ _ _ _ (Nat.succ_ne_zero lvl) h hl
      · rw [if_neg hob] at h
        exact IH _ _ _ _ _ _ _ _ _ _ _ h0 h hl

theorem collect_if_append_pending : ∀ xs ys su ei fa lvl m m' su' ei' fa' l',
    lvl ≠ 0 → collect_if xs su ei fa lvl m = .ok (m', su', ei', fa', [], l') → l' ≠ 0 →
    collect_if (xs ++ ys) su ei fa lvl m = collect_if ys su' ei' fa' l' m' := by
  intro xs
  induction xs with
  | nil =>
    intro ys su ei fa lvl m m' su' ei' fa' l' h0 h hl
    simp only [collect_if, Except.ok.injEq, Prod.mk.injEq] at h
    obtain ⟨rfl, rfl, rfl, rfl, -, rfl⟩ := h
    rfl
  | cons x xs' IH =>
    intro ys su ei fa lvl m m' su' ei' fa' l' h0 h hl
    simp only [collect_if, List.cons_append] at h ⊢
    split at h
    · split_ifs at h ⊢ with h1 h2
      · exact IH _ _ _ _ _ _ _ _ _ _ _ h0 h hl
      · exact IH _ _ _ _ _ _ _ _ _ _ _ h0 h hl
    · split_ifs at h ⊢ with h1 h2
      · exact IH _ _ _ _ _ _ _ _ _ _ _ h0 h hl
      · exact IH _ _ _ _ _ _ _ _ _ _ _ h0 h hl
    · split_ifs at h ⊢ with h1
      · simp only [Except.ok.injEq, Prod.mk.injEq] at h
        exact absurd h.2.2.2.2.2.symm hl
      · exact IH _ _ _ _ _ _ _ _ _ _ _ h1 h hl
    · by_cases hob : opens_block x = true
      · rw [if_pos hob] at h ⊢
        exact IH _ _ _ _ _ _ _ _ _ _ _ (Nat.succ_ne_zero lvl) h hl
      · rw [if_neg hob] at h ⊢
        exact IH _ _ _ _ _ _ _ _ _ _ _ h0 h hl

theorem collect_if_append_closed : ∀ xs ys su ei fa lvl m m' su' ei' fa' zs,
    lvl ≠ 0 → collect_if xs su ei fa lvl m = .ok (m', su', ei', fa', zs, 0) →
    collect_if (xs ++ ys) su ei fa lvl m = .ok (m', su', ei', fa', zs ++ ys, 0) := by
  intro xs
  induction xs with
  | nil =>
    intro ys su ei fa lvl m m' su' ei' fa' zs h0 h
    simp only [collect_if, Except.ok.injEq, Prod.mk.injEq] at h
    exact absurd h.2.2.2.2.2 h0
  | cons x xs' IH =>
    intro ys su ei fa lvl m m' su' ei' fa' zs h0 h
    simp only [collect_if, List.cons_append] at h ⊢
    split at h
    · split_ifs at h ⊢ with h1 h2
      · exact IH _ _ _ _ _ _ _ _ _ _ _ h0 h
      · exact IH _ _ _ _ _ _ _ _ _ _ _ h0 h
    · split_ifs at h ⊢ with h1 h2
      · exact IH _ _ _ _ _ _ _ _ _ _ _ h0 h
      · exact IH _ _ _ _ _ _ _ _ _ _ _ h0 h
    · split_ifs at h ⊢ with h1
      · simp only [Except.ok.injEq, Prod.mk.injEq] at h ⊢
        obtain ⟨rfl, rfl, rfl, rfl, rfl, -⟩ := h
        simp
      · exact IH _ _ _ _ _ _ _ _ _ _ _ h1 h
    · by_cases hob : opens_block x = true
      · rw [if_pos hob] at h ⊢
        exact IH _ _ _ _ _ _ _ _ _ _ _ (Nat.succ_ne_zero lvl) h
      · rw [if_neg hob] at h ⊢
        exact IH _ _ _ _ _ _ _ _ _ _ _ h0 h

theorem collect_if_mode_range : ∀ xs su ei fa lvl m m' su' ei' fa' zs l',
    collect_if xs su ei fa lvl m = .ok (m', su', ei', fa', zs, l') →
    m' = m ∨ m' = 2 ∨ m' = 3 := by
  intro xs
  induction xs with
  | nil =>
    intro su ei fa lvl m m' su' ei' fa' zs l' h
    simp only [collect_if, Except.ok.injEq, Prod.mk.injEq] at h
    exact Or.inl h.1.symm
  | cons x xs' IH =>
    intro su ei fa lvl m m' su' ei' fa' zs l' h
    simp only [collect_if] at h
    split at h
    · split_ifs at h with h1 h2
      · rcases IH _ _ _ _ _ _ _ _ _ _ _ h with h3 | h3 | h3
        · exact Or.inr (Or.inr h3)
        · exact Or.inr (Or.inl h3)
        · exact Or.inr (Or.inr h3)
      · exact IH _ _ _ _ _ _ _ _ _ _ _ h
    · split_ifs at h with h1 h2
      · rcases IH _ _ _ _ _ _ _ _ _ _ _ h with h3 | h3 | h3
        · exact Or.inr (Or.inl h3)
        · exact Or.inr (Or.inl h3)
        · exact Or.inr (Or.inr h3)
      · exact IH _ _ _ _ _ _ _ _ _ _ _ h
    · split_ifs at h with h1
      · simp only [Except.ok.injEq, Prod.mk.injEq] at h
        exact Or.inl h.1.symm
      · exact IH _ _ _ _ _ _ _ _ _ _ _ h
    · by_cases hob : opens_block x = true
      · rw [if_pos hob] at h
        exact IH _ _ _ _ _ _ _ _ _ _ _ h
      · rw [if_neg hob] at h
        exact IH _ _ _ _ _ _ _ _ _ _ _ h

theorem collect_cases_append_error : ∀ xs ys cases lvl cs' zs l' why,
    collect_cases xs cases lvl = (cs', zs, l', some why) →
    collect_cases (xs ++ ys) cases lvl = (cs', zs ++ ys, l', some why) := by
  intro xs
  induction xs with
  | nil =>
    intro ys cases lvl cs' zs l' why h
    simp only [collect_cases, Prod.mk.injEq] at h
    simp at h
  | cons x xs' IH =>
    intro ys cases lvl cs' zs l' why h
    simp only [collect_cases, List.cons_append] at h ⊢
    split at h
    · split_ifs at h ⊢ with h1
      · exact IH _ _ _ _ _ _ _ h
      · rename_i v
        rcases hap : append_last_case cases (.CaseM v) with _ | cases2 <;> rw [hap] at h
        · simp only [Prod.mk.injEq] at h
          obtain ⟨rfl, rfl, rfl, heq⟩ := h
          simp only [Option.some.injEq] at heq
          rw [heq]; rfl
        · exact IH _ _ _ _ _ _ _ h
    · split_ifs at h ⊢ with h1
      · simp only [Prod.mk.injEq] at h
        simp at h
      · rcases hap : append_last_case cases x with _ | cases2 <;> rw [hap] at h
        · simp only [Prod.mk.injEq] at h
          obtain ⟨rfl, rfl, rfl, heq⟩ := h
          simp only [Option.some.injEq] at heq
          rw [heq]; rfl
        · exact IH _ _ _ _ _ _ _ h

theorem collect_cases_shape_pending : ∀ xs ys cases lvl cs' zs l',
    lvl ≠ 0 → collect_cases xs cases lvl = (cs', zs, l', none) → l' ≠ 0 →
    zs = [] ∧ collect_cases (xs ++ ys) cases lvl = collect_cases ys cs' l' := by
  intro xs
  induction xs with
  | nil =>
    intro ys cases lvl cs' zs l' h0 h hl
    simp only [collect_cases, Prod.mk.injEq] at h
    obtain ⟨rfl, rfl, rfl, -⟩ := h
    exact ⟨rfl, rfl⟩
  | cons x xs' IH =>
    intro ys cases lvl cs' zs l' h0 h hl
    simp only [collect_cases, List.cons_append] at h ⊢
    split at h
    · split_ifs at h ⊢ with h1
      · exact IH _ _ _ _ _ _ h0 h hl
      · rename_i v
        rcases hap : append_last_case cases (.CaseM v) with _ | cases2 <;> rw [hap] at h
        · simp only [Prod.mk.injEq] at h
          simp at h
        · exact IH _ _ _ _ _ _ h0 h hl
    · split_ifs at h ⊢ with h1
      · simp only [Prod.mk.injEq] at h
        exact absurd h.2.2.1.symm hl
      · rcases hap : append_last_case cases x with _ | cases2 <;> rw [hap] at h
        · simp only [Prod.mk.injEq] at h
          simp at h
        · exact IH _ _ _ _ _ _ h1 h hl

theorem collect_cases_append_closed : ∀ xs ys cases lvl cs' zs,
    lvl ≠ 0 → collect_cases xs cases lvl = (cs', zs, 0, none) →
    collect_cases (xs ++ ys) cases lvl = (cs', zs ++ ys, 0, none) := by
  intro xs
  induction xs with
  | nil =>
    intro ys cases lvl cs' zs h0 h
    simp only [collect_cases, Prod.mk.injEq] at h
    exact absurd h.2.2.1 h0
  | cons x xs' IH =>
    intro ys cases lvl cs' zs h0 h
    simp only [collect_cases, List.cons_append] at h ⊢
    split at h
    · split_ifs at h ⊢ with h1
      · exact IH _ _ _ _ _ h0 h
      · rename_i v
        rcases hap : append_last_case cases (.CaseM v) with _ | cases2 <;> rw [hap] at h
        · simp only [Prod.mk.injEq] at h
          simp at h
        · exact IH _ _ _ _ _ h0 h
    · split_ifs at h ⊢ with h1
      · simp only [Prod.mk.injEq] at h ⊢
        obtain ⟨rfl, rfl, -, -⟩ := h
        simp
      · rcases hap : append_last_case cases x with _ | cases2 <;> rw [hap] at h
        · simp only [Prod.mk.injEq] at h
          simp at h
        · exact IH _ _ _ _ _ h1 h

/-- Forget the `current_if_mode` component of a shell state. -/
def strip (s : Shell) : Shell := { s with current_if_mode := 0 }

/-- Two run results agree up to the final `current_if_mode`. -/
def rel_strip : Option (Outcome × Shell) → Option (Outcome × Shell) → Prop
  | none, none => True
  | some (o, s), some (o', s') => o' = o ∧ strip s' = strip s
  | _, _ => False

theorem strip_update_mode (s : Shell) (m : Nat) :
    strip { s with current_if_mode := m } = strip s := by
  cases s; rfl

theorem eq_update_of_strip {s t : Shell} (h : strip t = strip s) :
    t = { s with current_if_mode := t.current_if_mode } := by
  cases s
  cases t
  simp only [strip, Shell.mk.injEq] at h ⊢
  simp_all

theorem poll_after_mode (env : Env) (st : Shell) (m : Nat) :
    poll_after env { st with current_if_mode := m } =
      (match poll_after env st with
        | .inl (o, s) => .inl (o, { s with current_if_mode := m })
        | .inr s => .inr { s with current_if_mode := m }) := by
  cases st with
  | mk lvl cs im bf ps vs ex fns sg pr er =>
    cases sg with
    | nil => cases bf <;> rfl
    | cons sig rest =>
      simp only [poll_after]
      cases hb : env.fatal sig <;> simp [hb]

theorem poll_then_mode {env : Env} {k k' : Shell → Option (Outcome × Shell)}
    (hk : ∀ s m', rel_strip (k s) (k' { s with current_if_mode := m' }))
    (st : Shell) (m : Nat) :
    rel_strip (poll_then env k st) (poll_then env k' { st with current_if_mode := m }) := by
  unfold poll_then
  rcases hp : poll_after env st with ⟨o, s⟩ | s
  · rw [poll_after_mode, hp]
    exact ⟨rfl, strip_update_mode s m⟩
  · rw [poll_after_mode, hp]
    exact hk s m

theorem run_pipeline_mode (p : Pipeline) (st : Shell) (m : Nat) :
    run_pipeline p { st with current_if_mode := m } =
      ((run_pipeline p st).1, { (run_pipeline p st).2 with current_if_mode := m }) := rfl

theorem local_assign_mode (e : String) (st : Shell) (m : Nat) :
    local_assign e { st with current_if_mode := m } =
      ((local_assign e st).1, { (local_assign e st).2 with current_if_mode := m }) := by
  rcases hs : e.splitOn "=" with _ | ⟨a, _ | ⟨b, l⟩⟩ <;> simp [local_assign, hs, set_var]

theorem export_assign_mode (e : String) (st : Shell) (m : Nat) :
    export_assign e { st with current_if_mode := m } =
      ((export_assign e st).1, { (export_assign e st).2 with current_if_mode := m }) := by
  rcases hs : e.splitOn "=" with _ | ⟨a, _ | ⟨b, l⟩⟩ <;> simp [export_assign, hs]

theorem run_mode_irrel (env : Env) : ∀ fuel call st m,
    rel_strip (run env fuel call st) (run env fuel call { st with current_if_mode := m }) := by
  intro fuel
  induction fuel with
  | zero => intro call st m; simp [run, rel_strip]
  | succ fuel IH =>
    intro call st m
    cases call with
    | stmts statements =>
      cases statements with
      | nil =>
        simp only [run]
        exact ⟨rfl, strip_update_mode st m⟩
      | cons statement rest =>
        cases statement with
        | Error number =>
          simp only [run]
          exact poll_then_mode (fun s m' => IH (.stmts rest) s m') _ m
        | Let expression =>
          rcases hl : local_assign expression st with ⟨status, st1⟩
          simp only [run, local_assign_mode, hl]
          exact poll_then_mode (fun s m' => IH (.stmts rest) s m') _ m
        | Export expression =>
          rcases hl : export_assign expression st with ⟨status, st1⟩
          simp only [run, export_assign_mode, hl]
          exact poll_then_mode (fun s m' => IH (.stmts rest) s m') _ m
        | Break =>
          simp only [run]
          exact ⟨rfl, strip_update_mode st m⟩
        | Continue =>
          simp only [run]
          exact ⟨rfl, strip_update_mode st m⟩
        | ElseIfM elseif =>
          simp only [run]
          exact poll_then_mode (fun s m' => IH (.stmts rest) s m') _ m
        | Else =>
          simp only [run]
          exact poll_then_mode (fun s m' => IH (.stmts rest) s m') _ m
        | End =>
          simp only [run]
          exact poll_then_mode (fun s m' => IH (.stmts rest) s m') _ m
        | CaseM value =>
          simp only [run]
          exact poll_then_mode (fun s m' => IH (.stmts rest) s m') _ m
        | Default =>
          simp only [run]
          exact poll_then_mode (fun s m' => IH (.stmts rest) s m') _ m
        | Pipeline pipeline =>
          simp only [run, run_pipeline_mode]
          by_cases hc : env.flags &&& ERR_EXIT ≠ 0 ∧
              (run_pipeline pipeline st).2.previous_status ≠ SUCCESS
          · rw [if_pos hc, if_pos hc]
            exact ⟨rfl, strip_update_mode _ m⟩
          · rw [if_neg hc, if_neg hc]
            exact poll_then_mode (fun s m' => IH (.stmts rest) s m') _ m
        | While expression statements =>
          rcases hcl : collect_loops rest statements (st.level + 1) with ⟨body', rest', level'⟩
          simp only [run, hcl]
          have hrel := IH (.whileLoop expression body') { st with level := level' } m
          rcases hr : run env fuel (.whileLoop expression body') { st with level := level' }
            with _ | ⟨o2, s2⟩ <;>
            rcases hr' : run env fuel (.whileLoop expression body')
              { st with current_if_mode := m, level := level' } with _ | ⟨o2', s2'⟩ <;>
            rw [hr, hr'] at hrel <;> simp only [rel_strip] at hrel
          · trivial
          · obtain ⟨rfl, hstrip⟩ := hrel
            cases o2' with
            | exit c => exact ⟨rfl, hstrip⟩
            | cond c =>
              cases c with
              | SigInt => exact ⟨rfl, hstrip⟩
              | Break =>
                rw [eq_update_of_strip hstrip]
                exact poll_then_mode (fun s m' => IH (.stmts rest') s m') _ _
              | Continue =>
                rw [eq_update_of_strip hstrip]
                exact poll_then_mode (fun s m' => IH (.stmts rest') s m') _ _
              | NoOp =>
                rw [eq_update_of_strip hstrip]
                exact poll_then_mode (fun s m' => IH (.stmts rest') s m') _ _
        | For vname values statements =>
          rcases hcl : collect_loops rest statements (st.level + 1) with ⟨body', rest', level'⟩
          simp only [run, hcl]
          have hrel := IH (for_call env vname values body') { st with level := level' } m
          rcases hr : run env fuel (for_call env vname values body') { st with level := level' }
            with _ | ⟨o2, s2⟩ <;>
            rcases hr' : run env fuel (for_call env vname values body')
              { st with current_if_mode := m, level := level' } with _ | ⟨o2', s2'⟩ <;>
            rw [hr, hr'] at hrel <;> simp only [rel_strip] at hrel
          · trivial
          · obtain ⟨rfl, hstrip⟩ := hrel
            cases o2' with
            | exit c => exact ⟨rfl, hstrip⟩
            | cond c =>
              cases c with
              | SigInt => exact ⟨rfl, hstrip⟩
              | Break =>
                rw [eq_update_of_strip hstrip]
                exact poll_then_mode (fun s m' => IH (.stmts rest') s m') _ _
              | Continue =>
                rw [eq_update_of_strip hstrip]
                exact poll_then_mode (fun s m' => IH (.stmts rest') s m') _ _
              | NoOp =>
                rw [eq_update_of_strip hstrip]
                exact poll_then_mode (fun s m' => IH (.stmts rest') s m') _ _
        | Function name args description statements =>
          rcases hcl : collect_loops rest statements (st.level + 1) with ⟨body', rest', level'⟩
          simp only [run, hcl]
          exact poll_then_mode (fun s m' => IH (.stmts rest') s m') _ m
        | If expression success else_if failure =>
          rcases hcf : collect_if rest success else_if failure (st.level + 1) 0
            with why | ⟨mode, su', ei', fa', rest', level'⟩
          · simp only [run, hcf]
            refine ⟨rfl, ?_⟩
            cases st
            rfl
          · simp only [run, hcf]
            have hrel := IH (.ifStmt expression su' ei' fa') { st with level := level' } m
            rcases hr : run env fuel (.ifStmt expression su' ei' fa') { st with level := level' }
              with _ | ⟨o2, s2⟩ <;>
              rcases hr' : run env fuel (.ifStmt expression su' ei' fa')
                { st with current_if_mode := m, level := level' } with _ | ⟨o2', s2'⟩ <;>
              rw [hr, hr'] at hrel <;> simp only [rel_strip] at hrel
            · trivial
            · obtain ⟨rfl, hstrip⟩ := hrel
              cases o2' with
              | exit c => exact ⟨rfl, hstrip⟩
              | cond c =>
                cases c with
                | SigInt => exact ⟨rfl, hstrip⟩
                | Break => exact ⟨rfl, hstrip⟩
                | Continue => exact ⟨rfl, hstrip⟩
                | NoOp =>
                  rw [eq_update_of_strip hstrip]
                  exact poll_then_mode (fun s m' => IH (.stmts rest') s m') _ _
        | Match expression cases =>
          rcases hcc : collect_cases rest cases (st.level + 1) with ⟨cases', rest', level', errq⟩
          cases errq with
          | some why =>
            simp only [run, hcc]
            refine ⟨rfl, ?_⟩
            cases st
            rfl
          | none =>
            simp only [run, hcc]
            have hrel := IH (.matchStmt expression cases') { st with level := level' } m
            rcases hr : run env fuel (.matchStmt expression cases') { st with level := level' }
              with _ | ⟨o2, s2⟩ <;>
              rcases hr' : run env fuel (.matchStmt expression cases')
                { st with current_if_mode := m, level := level' } with _ | ⟨o2', s2'⟩ <;>
              rw [hr, hr'] at hrel <;> simp only [rel_strip] at hrel
            · trivial
            · obtain ⟨rfl, hstrip⟩ := hrel
              cases o2' with
              | exit c => exact ⟨rfl, hstrip⟩
              | cond c =>
                cases c with
                | SigInt => exact ⟨rfl, hstrip⟩
                | Break => exact ⟨rfl, hstrip⟩
                | Continue => exact ⟨rfl, hstrip⟩
                | NoOp =>
                  rw [eq_update_of_strip hstrip]
                  exact poll_then_mode (fun s m' => IH (.stmts rest') s m') _ _
    | whileLoop expression statements =>
      rcases hrp : run_pipeline expression st with ⟨r, st1⟩
      simp only [run, run_pipeline_mode, hrp]
      by_cases hsucc : r = some SUCCESS
      · rw [if_pos hsucc, if_pos hsucc]
        have hrel := IH (.stmts statements) st1 m
        rcases hr : run env fuel (.stmts statements) st1 with _ | ⟨o2, s2⟩ <;>
          rcases hr' : run env fuel (.stmts statements) { st1 with current_if_mode := m }
            with _ | ⟨o2', s2'⟩ <;>
          rw [hr, hr'] at hrel <;> simp only [rel_strip] at hrel
        · trivial
        · obtain ⟨rfl, hstrip⟩ := hrel
          cases o2' with
          | exit c => exact ⟨rfl, hstrip⟩
          | cond c =>
            cases c with
            | SigInt => exact ⟨rfl, hstrip⟩
            | Break => exact ⟨rfl, hstrip⟩
            | Continue =>
              rw [eq_update_of_strip hstrip]
              exact IH (.whileLoop expression statements) s2 _
            | NoOp =>
              rw [eq_update_of_strip hstrip]
              exact IH (.whileLoop expression statements) s2 _
      · rw [if_neg hsucc, if_neg hsucc]
        exact ⟨rfl, strip_update_mode st1 m⟩
    | forBind vname elems statements =>
      cases elems with
      | nil =>
        simp only [run]
        exact ⟨rfl, strip_update_mode st m⟩
      | cons x elems' =>
        simp only [run]
        have hsv : set_var vname x { st with current_if_mode := m } =
            { set_var vname x st with current_if_mode := m } := rfl
        rw [hsv]
        have hrel := IH (.stmts statements) (set_var vname x st) m
        rcases hr : run env fuel (.stmts statements) (set_var vname x st) with _ | ⟨o2, s2⟩ <;>
          rcases hr' : run env fuel (.stmts statements)
            { set_var vname x st with current_if_mode := m } with _ | ⟨o2', s2'⟩ <;>
          rw [hr, hr'] at hrel <;> simp only [rel_strip] at hrel
        · trivial
        · obtain ⟨rfl, hstrip⟩ := hrel
          cases o2' with
          | exit c => exact ⟨rfl, hstrip⟩
          | cond c =>
            cases c with
            | SigInt => exact ⟨rfl, hstrip⟩
            | Break => exact ⟨rfl, hstrip⟩
            | Continue =>
              rw [eq_update_of_strip hstrip]
              exact IH (.forBind vname elems' statements) s2 _
            | NoOp =>
              rw [eq_update_of_strip hstrip]
              exact IH (.forBind vname elems' statements) s2 _
    | forNoBind elems statements =>
      cases elems with
      | nil =>
        simp only [run]
        exact ⟨rfl, strip_update_mode st m⟩
      | cons x elems' =>
        simp only [run]
        have hrel := IH (.stmts statements) st m
        rcases hr : run env fuel (.stmts statements) st with _ | ⟨o2, s2⟩ <;>
          rcases hr' : run env fuel (.stmts statements) { st with current_if_mode := m }
            with _ | ⟨o2', s2'⟩ <;>
          rw [hr, hr'] at hrel <;> simp only [rel_strip] at hrel
        · trivial
        · obtain ⟨rfl, hstrip⟩ := hrel
          cases o2' with
          | exit c => exact ⟨rfl, hstrip⟩
          | cond c =>
            cases c with
            | SigInt => exact ⟨rfl, hstrip⟩
            | Break => exact ⟨rfl, hstrip⟩
            | Continue =>
              rw [eq_update_of_strip hstrip]
              exact IH (.forNoBind elems' statements) s2 _
            | NoOp =>
              rw [eq_update_of_strip hstrip]
              exact IH (.forNoBind elems' statements) s2 _
    | ifStmt expression success else_if failure =>
      rcases hrp : run_pipeline expression st with ⟨r, st1⟩
      simp only [run, run_pipeline_mode, hrp]
      by_cases hsucc : r = some SUCCESS
      · rw [if_pos hsucc, if_pos hsucc]
        exact IH (.stmts success) st1 m
      · rw [if_neg hsucc, if_neg hsucc]
        exact IH (.elseIfScan else_if failure) st1 m
    | elseIfScan arms failure =>
      cases arms with
      | nil =>
        simp only [run]
        exact IH (.stmts failure) st m
      | cons arm arms' =>
        rcases hrp : run_pipeline arm.expression st with ⟨r, st1⟩
        simp only [run, run_pipeline_mode, hrp]
        by_cases hsucc : r = some SUCCESS
        · rw [if_pos hsucc, if_pos hsucc]
          exact IH (.stmts arm.success) st1 m
        · rw [if_neg hsucc, if_neg hsucc]
          exact IH (.elseIfScan arms' failure) st1 m
    | matchStmt expression cases =>
      simp only [run]
      rcases hsel : select_case env (env.expand expression) cases with _ | case <;>
        simp only [hsel]
      · exact ⟨rfl, strip_update_mode st m⟩
      · exact IH (.stmts case.statements) st m

/-- Two `on_command`-level results agree up to the final `current_if_mode`. -/
def res_strip : Option (Option Int × Shell) → Option (Option Int × Shell) → Prop
  | none, none => True
  | some (c, s), some (c', s') => c' = c ∧ strip s' = strip s
  | _, _ => False

theorem res_strip_refl : ∀ x, res_strip x x
  | none => trivial
  | some (_, _) => ⟨rfl, rfl⟩

theorem run_chunks_singleton (env : Env) (fuel : Nat) (c : List Statement) (st : Shell) :
    run_chunks env fuel [c] st = on_command env fuel c st := by
  simp only [run_chunks]
  rcases h : on_command env fuel c st with _ | ⟨oc, st1⟩
  · rfl
  · cases oc
    · rfl
    · rfl

/-- The pending collection stored in `st` closes exactly at the end of
`stmts`: level back to `0`, empty leftover, no collect error. -/
def pending_closes (st : Shell) (stmts : List Statement) : Prop :=
  match st.current_statement with
  | .While _ b => ∃ full, collect_loops stmts b st.level = (full, [], 0)
  | .For _ _ b => ∃ full, collect_loops stmts b st.level = (full, [], 0)
  | .Function _ _ _ b => ∃ full, collect_loops stmts b st.level = (full, [], 0)
  | .If _ su ei fa => ∃ m su' ei' fa',
      collect_if stmts su ei fa st.level st.current_if_mode = .ok (m, su', ei', fa', [], 0)
  | .Match _ cs => ∃ full, collect_cases stmts cs st.level = (full, [], 0, none)
  | _ => False

theorem on_command_pending_step (env : Env) (fuel : Nat) (c ys : List Statement) (st : Shell)
    (hlev : st.level ≠ 0) (hmode : st.current_if_mode ≠ 4) (hys : ys ≠ [])
    (hclose : pending_closes st (c ++ ys)) :
    ∃ st1, on_command env fuel c st = some (none, st1) ∧
      st1.level ≠ 0 ∧ st1.current_if_mode ≠ 4 ∧ pending_closes st1 ys ∧
      on_command env fuel ys st1 = on_command env fuel (c ++ ys) st := by
  obtain ⟨lv, cs0, im, bf, ps, vs, ex, fns, sg, pr, er⟩ := st
  cases cs0 with
  | While e b =>
    obtain ⟨full, hfull⟩ := hclose
    rcases hc : collect_loops c b lv with ⟨b₁, zs₁, lv₁⟩
    by_cases h1 : lv₁ = 0
    · subst h1
      rw [collect_loops_append_closed c ys b lv b₁ zs₁ hlev hc] at hfull
      simp only [Prod.mk.injEq] at hfull
      exact absurd (List.append_eq_nil.mp hfull.2.1).2 hys
    · have hzs : zs₁ = [] := by
        rcases collect_loops_shape c b lv b₁ zs₁ lv₁ hc with h | h
        · exact h
        · exact absurd h h1
      subst hzs
      have happ := collect_loops_append_pending c ys b lv b₁ lv₁ hlev hc h1
      rw [happ] at hfull
      refine ⟨⟨lv₁, .While e b₁, im, false, ps, vs, ex, fns, sg, pr, er⟩, ?_, h1, hmode,
        ⟨full, hfull⟩, ?_⟩
      · simp only [on_command, hc]
        rw [if_neg hlev, if_neg hmode, if_neg h1]
      · simp only [on_command]
        rw [if_neg h1, if_neg hlev, happ, hfull]
  | For vn vals b =>
    obtain ⟨full, hfull⟩ := hclose
    rcases hc : collect_loops c b lv with ⟨b₁, zs₁, lv₁⟩
    by_cases h1 : lv₁ = 0
    · subst h1
      rw [collect_loops_append_closed c ys b lv b₁ zs₁ hlev hc] at hfull
      simp only [Prod.mk.injEq] at hfull
      exact absurd (List.append_eq_nil.mp hfull.2.1).2 hys
    · have hzs : zs₁ = [] := by
        rcases collect_loops_shape c b lv b₁ zs₁ lv₁ hc with h | h
        · exact h
        · exact absurd h h1
      subst hzs
      have happ := collect_loops_append_pending c ys b lv b₁ lv₁ hlev hc h1
      rw [happ] at hfull
      refine ⟨⟨lv₁, .For vn vals b₁, im, false, ps, vs, ex, fns, sg, pr, er⟩, ?_, h1, hmode,
        ⟨full, hfull⟩, ?_⟩
      · simp only [on_command, hc]
        rw [if_neg hlev, if_neg hmode, if_neg h1]
      · simp only [on_command]
        rw [if_neg h1, if_neg hlev, happ, hfull]
  | Function nm args descr b =>
    obtain ⟨full, hfull⟩ := hclose
    rcases hc : collect_loops c b lv with ⟨b₁, zs₁, lv₁⟩
    by_cases h1 : lv₁ = 0
    · subst h1
      rw [collect_loops_append_closed c ys b lv b₁ zs₁ hlev hc] at hfull
      simp only [Prod.mk.injEq] at hfull
      exact absurd (List.append_eq_nil.mp hfull.2.1).2 hys
    · have hzs : zs₁ = [] := by
        rcases collect_loops_shape c b lv b₁ zs₁ lv₁ hc with h | h
        · exact h
        · exact absurd h h1
      subst hzs
      have happ := collect_loops_append_pending c ys b lv b₁ lv₁ hlev hc h1
      rw [happ] at hfull
      refine ⟨⟨lv₁, .Function nm args descr b₁, im, false, ps, vs, ex, fns, sg, pr, er⟩, ?_,
        h1, hmode, ⟨full, hfull⟩, ?_⟩
      · simp only [on_command, hc]
        rw [if_neg hlev, if_neg hmode, if_neg h1]
      · simp only [on_command]
        rw [if_neg h1, if_neg hlev, happ, hfull]
  | If e su ei fa =>
    obtain ⟨mf, su', ei', fa', hfull⟩ := hclose
    rcases hc : collect_if c su ei fa lv im with why | ⟨m₁, su₁, ei₁, fa₁, zs₁, lv₁⟩
    · rw [collect_if_append_error c ys su ei fa lv im why hc] at hfull
      exact Except.noConfusion hfull
    · by_cases h1 : lv₁ = 0
      · subst h1
        rw [collect_if_append_closed c ys su ei fa lv im m₁ su₁ ei₁ fa₁ zs₁ hlev hc] at hfull
        simp only [Except.ok.injEq, Prod.mk.injEq] at hfull
        exact absurd (List.append_eq_nil.mp hfull.2.2.2.2.1).2 hys
      · have hzs : zs₁ = [] :=
          collect_if_shape c su ei fa lv im m₁ su₁ ei₁ fa₁ zs₁ lv₁ hlev hc h1
        subst hzs
        have happ := collect_if_append_pending c ys su ei fa lv im m₁ su₁ ei₁ fa₁ lv₁ hlev hc h1
        rw [happ] at hfull
        have hm₁ : m₁ ≠ 4 := by
          rcases collect_if_mode_range c su ei fa lv im m₁ su₁ ei₁ fa₁ [] lv₁ hc with h | h | h
          · rw [h]; exact hmode
          · omega
          · omega
        refine ⟨⟨lv₁, .If e su₁ ei₁ fa₁, m₁, false, ps, vs, ex, fns, sg, pr, er⟩, ?_, h1, hm₁,
          ⟨mf, su', ei', fa', hfull⟩, ?_⟩
        · simp only [on_command, hc]
          rw [if_neg hlev, if_neg hm₁, if_neg h1]
        · simp only [on_command]
          rw [if_neg h1, if_neg hlev, happ, hfull]
  | Match e csM =>
    obtain ⟨full, hfull⟩ := hclose
    rcases hc : collect_cases c csM lv with ⟨cs₁, zs₁, lv₁, errq⟩
    cases errq with
    | some why =>
      rw [collect_cases_append_error c ys csM lv cs₁ zs₁ lv₁ why hc] at hfull
      simp at hfull
    | none =>
      by_cases h1 : lv₁ = 0
      · subst h1
        rw [collect_cases_append_closed c ys csM lv cs₁ zs₁ hlev hc] at hfull
        simp only [Prod.mk.injEq] at hfull
        exact absurd (List.append_eq_nil.mp hfull.2.1).2 hys
      · obtain ⟨hzs, happ⟩ := collect_cases_shape_pending c ys csM lv cs₁ zs₁ lv₁ hlev hc h1
        subst hzs
        rw [happ] at hfull
        refine ⟨⟨lv₁, .Match e cs₁, im, false, ps, vs, ex, fns, sg, pr, er⟩, ?_, h1, hmode,
          ⟨full, hfull⟩, ?_⟩
        · simp only [on_command, hc]
          rw [if_neg hlev, if_neg hmode, if_neg h1]
        · simp only [on_command]
          rw [if_neg h1, if_neg hlev, happ, hfull]
  | Pipeline p => exact hclose.elim
  | Let e => exact hclose.elim
  | Export e => exact hclose.elim
  | ElseIfM a => exact hclose.elim
  | Else => exact hclose.elim
  | End => exact hclose.elim
  | Break => exact hclose.elim
  | Continue => exact hclose.elim
  | CaseM v => exact hclose.elim
  | Error n => exact hclose.elim
  | Default => exact hclose.elim

theorem run_chunks_pending (env : Env) (fuel : Nat) : ∀ chunks (st : Shell),
    chunks ≠ [] → (∀ c ∈ chunks, c ≠ []) → st.level ≠ 0 → st.current_if_mode ≠ 4 →
    pending_closes st chunks.flatten →
    run_chunks env fuel chunks st = on_command env fuel chunks.flatten st := by
  intro chunks
  induction chunks with
  | nil => intro st h; exact absurd rfl h
  | cons c cs IH =>
    intro st _ hne hlev hmode hclose
    cases cs with
    | nil =>
      simp only [List.flatten_cons, List.flatten_nil, List.append_nil]
      rw [run_chunks_singleton]
    | cons c₂ cs₂ =>
      have hys : List.flatten (c₂ :: cs₂) ≠ [] := by
        have h2 := hne c₂ (by simp)
        simp only [List.flatten_cons]
        intro hcon
        exact h2 (List.append_eq_nil.mp hcon).1
      have hclose' : pending_closes st (c ++ List.flatten (c₂ :: cs₂)) := by
        simpa only [List.flatten_cons] using hclose
      obtain ⟨st1, h₁, hlev1, hmode1, hclose1, hd⟩ :=
        on_command_pending_step env fuel c (List.flatten (c₂ :: cs₂)) st hlev hmode hys hclose'
      calc run_chunks env fuel (c :: c₂ :: cs₂) st
          = run_chunks env fuel (c₂ :: cs₂) st1 := by
            simp only [run_chunks]
            rw [h₁]
        _ = on_command env fuel (List.flatten (c₂ :: cs₂)) st1 :=
            IH st1 (by simp) (fun x hx => hne x (List.mem_cons_of_mem c hx)) hlev1 hmode1 hclose1
        _ = on_command env fuel ((c :: c₂ :: cs₂).flatten) st := by
            rw [hd]
            simp only [List.flatten_cons]

theorem run_chunks_cons_none (env : Env) (fuel : Nat) (c : List Statement)
    (cs : List (List Statement)) (st st1 : Shell)
    (h : on_command env fuel c st = some (none, st1)) :
    run_chunks env fuel (c :: cs) st = run_chunks env fuel cs st1 := by
  simp only [run_chunks, h]

theorem run_toplevel_nil (env : Env) (fuel gas : Nat) (st : Shell) :
    run_toplevel env fuel gas [] st = some (none, st) := by
  cases gas <;> rfl

/-- The statements `statement :: body` form one complete compound
statement: `statement` opens a block and the matching collector closes it
exactly at the end of `body` (level back to `0`, no leftover, no error). -/
def complete_compound (statement : Statement) (body : List Statement) : Prop :=
  match statement with
  | .While _ b => ∃ full, collect_loops body b 1 = (full, [], 0)
  | .For _ _ b => ∃ full, collect_loops body b 1 = (full, [], 0)
  | .Function _ _ _ b => ∃ full, collect_loops body b 1 = (full, [], 0)
  | .If _ su ei fa => ∃ m su' ei' fa',
      collect_if body su ei fa 1 0 = .ok (m, su', ei', fa', [], 0)
  | .Match _ cs => ∃ full, collect_cases body cs 1 = (full, [], 0, none)
  | _ => False

/-- C4 (corrected): feeding one complete compound statement
`statement :: body` to `on_command` as a single input line gives the same
result and final shell state -- up to the final `current_if_mode` -- as
feeding the same statements split at any statement boundaries across
successive `on_command` calls (nonempty chunks, clean starting state,
positive fuel).  Equality of the full flow-control state, as literally
claimed, fails: see the `current_if_mode` counterexample. -/
theorem c4_split_lines_agree_mod_if_mode (env : Env) (fuel : Nat)
    (statement : Statement) (body : List Statement) (chunks : List (List Statement))
    (st : Shell) (hfuel : 0 < fuel) (hlevel : st.level = 0)
    (hcs : st.current_statement = .Default) (hmode : st.current_if_mode ≠ 4)
    (hcomplete : complete_compound statement body)
    (hne : ∀ c ∈ chunks, c ≠ [])
    (hjoin : chunks.flatten = statement :: body) :
    res_strip (run_chunks env fuel chunks st)
      (on_command env fuel (statement :: body) st) := by
  obtain ⟨lv, cs0, im, bf, ps, vs, ex, fns, sg, pr, er⟩ := st
  have hlv : lv = 0 := hlevel
  subst hlv
  have hc0 : cs0 = Statement.Default := hcs
  subst hc0
  have him : im ≠ 4 := hmode
  cases fuel with
  | zero => exact absurd hfuel (lt_irrefl 0)
  | succ g =>
  cases chunks with
  | nil => simp at hjoin
  | cons c₁ cs =>
  simp only [List.flatten_cons] at hjoin
  cases c₁ with
  | nil => exact absurd rfl (hne [] (by simp))
  | cons s₀ b₁ =>
  simp only [List.cons_append, List.cons.injEq] at hjoin
  obtain ⟨h₀, hbody⟩ := hjoin
  subst h₀
  subst hbody
  cases cs with
  | nil =>
    simp only [List.flatten_nil, List.append_nil]
    rw [run_chunks_singleton]
    exact res_strip_refl _
  | cons c₂ cs₂ =>
  have hysne : List.flatten (c₂ :: cs₂) ≠ [] := by
    have h2 := hne c₂ (by simp)
    simp only [List.flatten_cons]
    intro hcon
    exact h2 (List.append_eq_nil.mp hcon).1
  cases s₀ with
  | While e b =>
    obtain ⟨full, hfull⟩ := hcomplete
    rcases hc : collect_loops b₁ b 1 with ⟨b₂, zs₁, lv₁⟩
    by_cases h1 : lv₁ = 0
    · subst h1
      rw [collect_loops_append_closed b₁ (List.flatten (c₂ :: cs₂)) b 1 b₂ zs₁ one_ne_zero hc]
        at hfull
      simp only [Prod.mk.injEq] at hfull
      exact absurd (List.append_eq_nil.mp hfull.2.1).2 hysne
    · have hzs : zs₁ = [] := by
        rcases collect_loops_shape b₁ b 1 b₂ zs₁ lv₁ hc with h | h
        · exact h
        · exact absurd h h1
      subst hzs
      have happ := collect_loops_append_pending b₁ (List.flatten (c₂ :: cs₂)) b 1 b₂ lv₁
        one_ne_zero hc h1
      rw [happ] at hfull
      have hpend := run_chunks_pending env (g + 1) (c₂ :: cs₂)
        ⟨lv₁, .While e b₂, im, false, ps, vs, ex, fns, sg, pr, er⟩
        (by simp) (fun x hx => hne x (List.mem_cons_of_mem _ hx)) h1 him ⟨full, hfull⟩
      have hfirst : on_command env (g + 1) (Statement.While e b :: b₁)
          ⟨0, .Default, im, bf, ps, vs, ex, fns, sg, pr, er⟩ =
          some (none, ⟨lv₁, .While e b₂, im, false, ps, vs, ex, fns, sg, pr, er⟩) := by
        simp only [on_command, run_toplevel, execute_toplevel, Nat.zero_add, hc,
          eq_self_iff_true, if_true]
        rw [if_neg h1]
        exact run_toplevel_nil _ _ _ _
      rw [run_chunks_cons_none env (g + 1) _ _ _ _ hfirst, hpend]
      simp only [on_command, run_toplevel, execute_toplevel, Nat.zero_add, happ, hfull,
        eq_self_iff_true, if_true]
      rw [if_neg h1, if_neg him]
      rcases hr : run env (g + 1) (.whileLoop e full)
          ⟨0, .Default, im, false, ps, vs, ex, fns, sg, pr, er⟩ with _ | ⟨o3, s3⟩
      · trivial
      · cases o3 with
        | exit c => exact res_strip_refl _
        | cond cc =>
          cases cc <;> simp only [run_toplevel_nil] <;> exact res_strip_refl _
  | For vn vals b =>
    obtain ⟨full, hfull⟩ := hcomplete
    rcases hc : collect_loops b₁ b 1 with ⟨b₂, zs₁, lv₁⟩
    by_cases h1 : lv₁ = 0
    · subst h1
      rw [collect_loops_append_closed b₁ (List.flatten (c₂ :: cs₂)) b 1 b₂ zs₁ one_ne_zero hc]
        at hfull
      simp only [Prod.mk.injEq] at hfull
      exact absurd (List.append_eq_nil.mp hfull.2.1).2 hysne
    · have hzs : zs₁ = [] := by
        rcases collect_loops_shape b₁ b 1 b₂ zs₁ lv₁ hc with h | h
        · exact h
        · exact absurd h h1
      subst hzs
      have happ := collect_loops_append_pending b₁ (List.flatten (c₂ :: cs₂)) b 1 b₂ lv₁
        one_ne_zero hc h1
      rw [happ] at hfull
      have hpend := run_chunks_pending env (g + 1) (c₂ :: cs₂)
        ⟨lv₁, .For vn vals b₂, im, false, ps, vs, ex, fns, sg, pr, er⟩
        (by simp) (fun x hx => hne x (List.mem_cons_of_mem _ hx)) h1 him ⟨full, hfull⟩
      have hfirst : on_command env (g + 1) (Statement.For vn vals b :: b₁)
          ⟨0, .Default, im, bf, ps, vs, ex, fns, sg, pr, er⟩ =
          some (none, ⟨lv₁, .For vn vals b₂, im, false, ps, vs, ex, fns, sg, pr, er⟩) := by
        simp only [on_command, run_toplevel, execute_toplevel, Nat.zero_add, hc,
          eq_self_iff_true, if_true]
        rw [if_neg h1]
        exact run_toplevel_nil _ _ _ _
      rw [run_chunks_cons_none env (g + 1) _ _ _ _ hfirst, hpend]
      simp only [on_command, run_toplevel, execute_toplevel, Nat.zero_add, happ, hfull,
        eq_self_iff_true, if_true]
      rw [if_neg h1, if_neg him]
      rcases hr : run env (g + 1) (for_call env vn vals full)
          ⟨0, .Default, im, false, ps, vs, ex, fns, sg, pr, er⟩ with _ | ⟨o3, s3⟩
      · trivial
      · cases o3 with
        | exit c => exact res_strip_refl _
        | cond cc =>
          cases cc <;> simp only [run_toplevel_nil] <;> exact res_strip_refl _
  | Function nm args descr b =>
    obtain ⟨full, hfull⟩ := hcomplete
    rcases hc : collect_loops b₁ b 1 with ⟨b₂, zs₁, lv₁⟩
    by_cases h1 : lv₁ = 0
    · subst h1
      rw [collect_loops_append_closed b₁ (List.flatten (c₂ :: cs₂)) b 1 b₂ zs₁ one_ne_zero hc]
        at hfull
      simp only [Prod.mk.injEq] at hfull
      exact absurd (List.append_eq_nil.mp hfull.2.1).2 hysne
    · have hzs : zs₁ = [] := by
        rcases collect_loops_shape b₁ b 1 b₂ zs₁ lv₁ hc with h | h
        · exact h
        · exact absurd h h1
      subst hzs
      have happ := collect_loops_append_pending b₁ (List.flatten (c₂ :: cs₂)) b 1 b₂ lv₁
        one_ne_zero hc h1
      rw [happ] at hfull
      have hpend := run_chunks_pending env (g + 1) (c₂ :: cs₂)
        ⟨lv₁, .Function nm args descr b₂, im, false, ps, vs, ex, fns, sg, pr, er⟩
        (by simp) (fun x hx => hne x (List.mem_cons_of_mem _ hx)) h1 him ⟨full, hfull⟩
      have hfirst : on_command env (g + 1) (Statement.Function nm args descr b :: b₁)
          ⟨0, .Default, im, bf, ps, vs, ex, fns, sg, pr, er⟩ =
          some (none, ⟨lv₁, .Function nm args descr b₂, im, false, ps, vs, ex, fns, sg, pr,
            er⟩) := by
        simp only [on_command, run_toplevel, execute_toplevel, Nat.zero_add, hc,
          eq_self_iff_true, if_true]
        rw [if_neg h1]
        exact run_toplevel_nil _ _ _ _
      rw [run_chunks_cons_none env (g + 1) _ _ _ _ hfirst, hpend]
      simp only [on_command, run_toplevel, execute_toplevel, Nat.zero_add, happ, hfull,
        eq_self_iff_true, if_true]
      rw [if_neg h1, if_neg him]
      exact res_strip_refl _
  | If e su ei fa =>
    obtain ⟨mf, su', ei', fa', hfull⟩ := hcomplete
    rcases hc : collect_if b₁ su ei fa 1 0 with why | ⟨m₁, su₁, ei₁, fa₁, zs₁, lv₁⟩
    · rw [collect_if_append_error b₁ (List.flatten (c₂ :: cs₂)) su ei fa 1 0 why hc] at hfull
      exact Except.noConfusion hfull
    · by_cases h1 : lv₁ = 0
      · subst h1
        rw [collect_if_append_closed b₁ (List.flatten (c₂ :: cs₂)) su ei fa 1 0 m₁ su₁ ei₁ fa₁
          zs₁ one_ne_zero hc] at hfull
        simp only [Except.ok.injEq, Prod.mk.injEq] at hfull
        exact absurd (List.append_eq_nil.mp hfull.2.2.2.2.1).2 hysne
      · have hzs : zs₁ = [] :=
          collect_if_shape b₁ su ei fa 1 0 m₁ su₁ ei₁ fa₁ zs₁ lv₁ one_ne_zero hc h1
        subst hzs
        have happ := collect_if_append_pending b₁ (List.flatten (c₂ :: cs₂)) su ei fa 1 0 m₁
          su₁ ei₁ fa₁ lv₁ one_ne_zero hc h1
        rw [happ] at hfull
        have hm₁ : m₁ ≠ 4 := by
          rcases collect_if_mode_range b₁ su ei fa 1 0 m₁ su₁ ei₁ fa₁ [] lv₁ hc
            with h | h | h <;> omega
        have hmf : mf ≠ 4 := by
          rcases collect_if_mode_range (List.flatten (c₂ :: cs₂)) su₁ ei₁ fa₁ lv₁ m₁ mf su' ei'
            fa' [] 0 hfull with h | h | h <;> omega
        have hpend := run_chunks_pending env (g + 1) (c₂ :: cs₂)
          ⟨lv₁, .If e su₁ ei₁ fa₁, m₁, false, ps, vs, ex, fns, sg, pr, er⟩
          (by simp) (fun x hx => hne x (List.mem_cons_of_mem _ hx)) h1 hm₁
          ⟨mf, su', ei', fa', hfull⟩
        have hfirst : on_command env (g + 1) (Statement.If e su ei fa :: b₁)
            ⟨0, .Default, im, bf, ps, vs, ex, fns, sg, pr, er⟩ =
            some (none, ⟨lv₁, .If e su₁ ei₁ fa₁, m₁, false, ps, vs, ex, fns, sg, pr, er⟩) := by
          simp only [on_command, run_toplevel, execute_toplevel, Nat.zero_add, hc,
            eq_self_iff_true, if_true]
          rw [if_neg h1]
          exact run_toplevel_nil _ _ _ _
        rw [run_chunks_cons_none env (g + 1) _ _ _ _ hfirst, hpend]
        simp only [on_command, run_toplevel, execute_toplevel, Nat.zero_add, happ, hfull,
          eq_self_iff_true, if_true]
        rw [if_neg h1, if_neg hmf]
        have hrel := run_mode_irrel env (g + 1) (.ifStmt e su' ei' fa')
          ⟨0, .Default, im, false, ps, vs, ex, fns, sg, pr, er⟩ mf
        rcases hrA : run env (g + 1) (.ifStmt e su' ei' fa')
            ⟨0, .Default, im, false, ps, vs, ex, fns, sg, pr, er⟩ with _ | ⟨o3, s3⟩ <;>
          rcases hrB : run env (g + 1) (.ifStmt e su' ei' fa')
              ⟨0, .Default, mf, false, ps, vs, ex, fns, sg, pr, er⟩ with _ | ⟨o4, s4⟩ <;>
          rw [hrA, hrB] at hrel <;> simp only [rel_strip] at hrel
        · trivial
        · obtain ⟨rfl, hstrip⟩ := hrel
          cases o4 with
          | exit c => exact ⟨rfl, hstrip.symm⟩
          | cond cc =>
            simp only [run_toplevel_nil]
            exact ⟨rfl, hstrip.symm⟩
  | Match e csM =>
    obtain ⟨full, hfull⟩ := hcomplete
    rcases hc : collect_cases b₁ csM 1 with ⟨cs₁, zs₁, lv₁, errq⟩
    cases errq with
    | some why =>
      rw [collect_cases_append_error b₁ (List.flatten (c₂ :: cs₂)) csM 1 cs₁ zs₁ lv₁ why hc]
        at hfull
      simp at hfull
    | none =>
      by_cases h1 : lv₁ = 0
      · subst h1
        rw [collect_cases_append_closed b₁ (List.flatten (c₂ :: cs₂)) csM 1 cs₁ zs₁ one_ne_zero
          hc] at hfull
        simp only [Prod.mk.injEq] at hfull
        exact absurd (List.append_eq_nil.mp hfull.2.1).2 hysne
      · obtain ⟨hzs, happ⟩ := collect_cases_shape_pending b₁ (List.flatten (c₂ :: cs₂)) csM 1
          cs₁ zs₁ lv₁ one_ne_zero hc h1
        subst hzs
        rw [happ] at hfull
        have hpend := run_chunks_pending env (g + 1) (c₂ :: cs₂)
          ⟨lv₁, .Match e cs₁, im, false, ps, vs, ex, fns, sg, pr, er⟩
          (by simp) (fun x hx => hne x (List.mem_cons_of_mem _ hx)) h1 him ⟨full, hfull⟩
        have hfirst : on_command env (g + 1) (Statement.Match e csM :: b₁)
            ⟨0, .Default, im, bf, ps, vs, ex, fns, sg, pr, er⟩ =
            some (none, ⟨lv₁, .Match e cs₁, im, false, ps, vs, ex, fns, sg, pr, er⟩) := by
          simp only [on_command, run_toplevel, execute_toplevel, Nat.zero_add, hc,
            eq_self_iff_true, if_true]
          rw [if_neg h1]
          exact run_toplevel_nil _ _ _ _
        rw [run_chunks_cons_none env (g + 1) _ _ _ _ hfirst, hpend]
        simp only [on_command, run_toplevel, execute_toplevel, Nat.zero_add, happ, hfull,
          eq_self_iff_true, if_true]
        rw [if_neg h1, if_neg him]
        rcases hr : run env (g + 1) (.matchStmt e full)
            ⟨0, .Default, im, false, ps, vs, ex, fns, sg, pr, er⟩ with _ | ⟨o3, s3⟩
        · trivial
        · cases o3 with
          | exit c => exact res_strip_refl _
          | cond cc =>
            simp only [run_toplevel_nil]
            exact res_strip_refl _
  | Pipeline p => exact hcomplete.elim
  | Let e => exact hcomplete.elim
  | Export e => exact hcomplete.elim
  | ElseIfM a => exact hcomplete.elim
  | Else => exact hcomplete.elim
  | End => exact hcomplete.elim
  | Break => exact hcomplete.elim
  | Continue => exact hcomplete.elim
  | CaseM v => exact hcomplete.elim
  | Error n => exact hcomplete.elim
  | Default => exact hcomplete.elim

/-- C4 counterexample to the literal claim: a complete `if` statement fed
on one line ends with `current_if_mode = 0`, but fed as two successive
calls (`if ...` then `else / end`) it ends with `current_if_mode = 3`,
because the pending-completion path keeps the final collect mode while
the single-line toplevel path never writes it. -/
theorem c4_if_mode_counterexample :
    (on_command w_env 10 [.If ⟨0⟩ [] [] [], .Else, .End] w_st).map
        (fun r => r.2.current_if_mode) = some 0 ∧
      (run_chunks w_env 10 [[.If ⟨0⟩ [] [] []], [.Else, .End]] w_st).map
        (fun r => r.2.current_if_mode) = some 3 := ⟨rfl, rfl⟩

theorem c4_split_lines_agree_mod_if_mode_witness :
    res_strip (run_chunks w_env 10 [[.If ⟨0⟩ [] [] []], [.Else, .End]] w_st)
      (on_command w_env 10 [.If ⟨0⟩ [] [] [], .Else, .End] w_st) :=
  c4_split_lines_agree_mod_if_mode w_env 10 (.If ⟨0⟩ [] [] []) [.Else, .End]
    [[.If ⟨0⟩ [] [] []], [.Else, .End]] w_st (by decide) rfl rfl (by decide)
    ⟨3, [], [], [], rfl⟩
    (by
      intro c h
      rcases List.mem_cons.mp h with rfl | h2
      · exact List.cons_ne_nil _ _
      · rcases List.mem_cons.mp h2 with rfl | h3
        · exact List.cons_ne_nil _ _
        · exact absurd h3 (List.not_mem_nil c))
    rfl
